import Mathlib

set_option maxRecDepth 8000

/-
  Verification of the call-log decoding pipeline of this repository against its
  specification.  Python sources are shallowly embedded: byte strings become
  `List Nat` (each element a byte value 0..255), text strings become `String`,
  `None`-able results become `Option`, raised-and-caught exceptions become
  `Option`/`Except` error values, and datetimes become integer microseconds
  relative to the reference date 2001-01-01T00:00:00Z (Python `datetime`
  arithmetic is exact at microsecond resolution).

  The file is organised as definitions first (the embedding), then theorems
  (helper lemmas followed by one theorem per claim, with witnesses and
  counterexamples).
-/

/-! ## Byte-string utilities -/

/-- Byte values of an ASCII string literal (every character below 128). -/
def strBytes (s : String) : List Nat :=
  s.data.map Char.toNat

/-- `True` iff the byte string `sub` occurs in `data` starting at index `i`
(the whole of `sub` must fit). -/
def subAt (data sub : List Nat) (i : Nat) : Bool :=
  decide ((data.drop i).take sub.length = sub)

/-- Leftmost occurrence of `sub` in `data` at an index `≥ start`: the embedding
of Python `bytes.find(sub, start)`, with `none` for the `-1` "not found" result. -/
def findSubFrom (data sub : List Nat) (start : Nat) : Option Nat :=
  (List.range' start (data.length + 1 - start)).find? (fun i => subAt data sub i)

/-- Python `bytes.find(sub)`. -/
def findSub (data sub : List Nat) : Option Nat :=
  findSubFrom data sub 0

/-- Python `sub in data` (substring containment test on bytes). -/
def containsSub (data sub : List Nat) : Bool :=
  (findSub data sub).isSome

/-- Python `bytes.find(sub, start, stop)`: leftmost occurrence inside the
slice `[start, stop)`; the occurrence must fit entirely before `stop`. -/
def findSubInRange (data sub : List Nat) (start stop : Nat) : Option Nat :=
  (List.range' start (data.length + 1 - start)).find?
    (fun i => subAt data sub i && decide (i + sub.length ≤ stop))

/-- ASCII digit test on a byte. -/
def isDigitByte (b : Nat) : Bool :=
  48 ≤ b && b ≤ 57

/-- Whitespace byte class of Python's regex `\s` on bytes patterns:
space, tab, newline, carriage return, form feed, vertical tab. -/
def isWsByte (b : Nat) : Bool :=
  b == 32 || b == 9 || b == 10 || b == 13 || b == 12 || b == 11

/-- Length of the maximal run of digit bytes starting at index `i`. -/
def digitRunLen (data : List Nat) (i : Nat) : Nat :=
  ((data.drop i).takeWhile isDigitByte).length

/-- Length of the maximal run of `\s` bytes starting at index `i`. -/
def wsRunLen (data : List Nat) (i : Nat) : Nat :=
  ((data.drop i).takeWhile isWsByte).length

/-- Length of the maximal run of non-digit bytes starting at index `i`
(regex `\D*`, greedy). -/
def nonDigitRunLen (data : List Nat) (i : Nat) : Nat :=
  ((data.drop i).takeWhile (fun b => !isDigitByte b)).length

/-- `True` iff index `j` holds a digit byte. -/
def isDigitAt (data : List Nat) (j : Nat) : Bool :=
  match data.get? j with
  | some b => isDigitByte b
  | none => false

/-- Numeric value of a list of ASCII digit bytes (what Python's `int` returns
on the corresponding decoded digit string). -/
def natOfDigits (l : List Nat) : Nat :=
  l.foldl (fun a b => a * 10 + (b - 48)) 0

/-- UTF-8 continuation byte test. -/
def isContByte (b : Nat) : Bool :=
  128 ≤ b && b ≤ 191

/-- Legal range of the first continuation byte of a 3-byte UTF-8 form
(excludes overlong forms after `0xE0` and surrogates after `0xED`). -/
def utf8ThreeFirstOk (b c1 : Nat) : Bool :=
  if b == 224 then 160 ≤ c1 && c1 ≤ 191
  else if b == 237 then 128 ≤ c1 && c1 ≤ 159
  else isContByte c1

/-- Legal range of the first continuation byte of a 4-byte UTF-8 form
(excludes overlong forms after `0xF0` and values above U+10FFFF after
`0xF4`). -/
def utf8FourFirstOk (b c1 : Nat) : Bool :=
  if b == 240 then 144 ≤ c1 && c1 ≤ 191
  else if b == 244 then 128 ≤ c1 && c1 ≤ 143
  else isContByte c1

mutual

/-- Strict UTF-8 decoding of a byte list into characters, the embedding of
Python `bytes.decode` for UTF-8: `none` models `UnicodeDecodeError`.
Rejects overlong forms, surrogates and values above U+10FFFF, as CPython
does. -/
def utf8Decode : List Nat → Option (List Char)
  | [] => some []
  | b :: r =>
    if b ≤ 127 then (utf8Decode r).map (fun cs => Char.ofNat b :: cs)
    else if 194 ≤ b && b ≤ 223 then utf8Dec2 b r
    else if 224 ≤ b && b ≤ 239 then utf8Dec3 b r
    else if 240 ≤ b && b ≤ 244 then utf8Dec4 b r
    else none

/-- Continuation of `utf8Decode` after a 2-byte leading byte. -/
def utf8Dec2 (b : Nat) : List Nat → Option (List Char)
  | c1 :: r1 =>
    if isContByte c1 then
      (utf8Decode r1).map (fun cs => Char.ofNat ((b - 192) * 64 + (c1 - 128)) :: cs)
    else none
  | [] => none

/-- Continuation of `utf8Decode` after a 3-byte leading byte. -/
def utf8Dec3 (b : Nat) : List Nat → Option (List Char)
  | c1 :: c2 :: r2 =>
    if utf8ThreeFirstOk b c1 && isContByte c2 then
      (utf8Decode r2).map
        (fun cs => Char.ofNat ((b - 224) * 4096 + (c1 - 128) * 64 + (c2 - 128)) :: cs)
    else none
  | _ => none

/-- Continuation of `utf8Decode` after a 4-byte leading byte. -/
def utf8Dec4 (b : Nat) : List Nat → Option (List Char)
  | c1 :: c2 :: c3 :: r3 =>
    if utf8FourFirstOk b c1 && isContByte c2 && isContByte c3 then
      (utf8Decode r3).map
        (fun cs =>
          Char.ofNat
            ((b - 240) * 262144 + (c1 - 128) * 4096 + (c2 - 128) * 64 + (c3 - 128)) :: cs)
    else none
  | _ => none

end

/-- Python `bytes.decode` for UTF-8 as a `String`. -/
def strOfBytes (b : List Nat) : Option String :=
  (utf8Decode b).map (fun cs => String.mk cs)

/-! ## IEEE-754 doubles and Python datetime arithmetic -/

/-- Integer division rounded to nearest, ties to even: the rounding CPython
applies when converting float seconds to whole microseconds inside
`timedelta(seconds=...)`. -/
def roundHalfEvenDiv (n d : Nat) : Nat :=
  let q := n / d
  let r := n % d
  if 2 * r < d then q
  else if d < 2 * r then q + 1
  else if q % 2 = 0 then q else q + 1

/-- Exact value, in microseconds, of a finite IEEE-754 double of seconds read
from its 8 big-endian bytes — the embedding of `struct.unpack` with the
big-endian double format followed by `timedelta(seconds=...)`'s conversion to
microseconds.  A finite double is `sign * m * 2 ^ (e - 1075)` seconds for the
mantissa `m` and biased exponent `e` of its bit pattern; the microsecond
count is that value times `10 ^ 6`, rounded half-to-even.  `none` for the
NaN/infinity exponent: such values make `timedelta` raise, which every caller
in the sources turns into a `None`/dropped-record outcome. -/
def doubleToMicros (b : List Nat) : Option ℤ :=
  if b.length = 8 then
    let bits : Nat := b.foldl (fun acc x => acc * 256 + x % 256) 0
    let e : Nat := bits / 2 ^ 52 % 2 ^ 11
    let frac : Nat := bits % 2 ^ 52
    if e = 2047 then none
    else
      let m : Nat := if e = 0 then frac else 2 ^ 52 + frac
      let e' : Nat := if e = 0 then 1 else e
      let mag : Nat :=
        if 1075 ≤ e' then m * 1000000 * 2 ^ (e' - 1075)
        else roundHalfEvenDiv (m * 1000000) (2 ^ (1075 - e'))
      if bits / 2 ^ 63 % 2 = 1 then some (-(mag : ℤ)) else some (mag : ℤ)
  else none

/-- `datetime.min` (0001-01-01T00:00:00) in microseconds relative to the
reference date 2001-01-01T00:00:00Z: 730485 days before it. -/
def pyDatetimeMinMicros : ℤ := -63113904000000000

/-- `datetime.max` (9999-12-31T23:59:59.999999) in microseconds relative to
the reference date 2001-01-01T00:00:00Z: 2921573 days and 86399.999999
seconds after it. -/
def pyDatetimeMaxMicros : ℤ := 252423993599999999

/-- `datetime(2001, 1, 1) + timedelta(microseconds=m)` as microseconds
relative to the reference date; `none` models the `OverflowError` raised when
the sum leaves Python's `datetime` range. -/
def clampDatetime (m : ℤ) : Option ℤ :=
  if pyDatetimeMinMicros ≤ m ∧ m ≤ pyDatetimeMaxMicros then some m else none

/-- Proleptic Gregorian date of a day count relative to 1970-01-01
(the standard civil-from-days algorithm, exact for all day counts). -/
def civilFromDays (z : ℤ) : ℤ × ℕ × ℕ :=
  let z' := z + 719468
  let era : ℤ := Int.fdiv z' 146097
  let doe : ℕ := (z' - era * 146097).toNat
  let yoe : ℕ := (doe - doe / 1460 + doe / 36524 - doe / 146096) / 365
  let y : ℤ := era * 400 + yoe
  let doy : ℕ := doe - (365 * yoe + yoe / 4 - yoe / 100)
  let mp : ℕ := (5 * doy + 2) / 153
  let d : ℕ := doy - (153 * mp + 2) / 5 + 1
  let m : ℕ := if mp < 10 then mp + 3 else mp + 3 - 12
  (if m ≤ 2 then y + 1 else y, m, d)

/-- Day count relative to 1970-01-01 of a proleptic Gregorian date
(inverse of `civilFromDays`). -/
def daysFromCivil (y : ℤ) (m d : ℕ) : ℤ :=
  let y' : ℤ := if m ≤ 2 then y - 1 else y
  let era : ℤ := Int.fdiv y' 400
  let yoe : ℕ := (y' - era * 400).toNat
  let mp : ℕ := if 2 < m then m - 3 else m + 9
  let doy : ℕ := (153 * mp + 2) / 5 + d - 1
  let doe : ℕ := yoe * 365 + yoe / 4 - yoe / 100 + doy
  era * 146097 + doe - 719468

/-- Microseconds per day. -/
def microsPerDay : ℤ := 86400000000

/-- Number of days from 1970-01-01 to the reference date 2001-01-01. -/
def refEpochDays : ℤ := 11323

/-- Render microseconds relative to 2001-01-01T00:00:00Z as a civil UTC
datetime `((year, month, day), (hour, minute, second, microsecond))`. -/
def microsToCivil (micros : ℤ) : (ℤ × ℕ × ℕ) × (ℕ × ℕ × ℕ × ℕ) :=
  let day := Int.fdiv micros microsPerDay
  let rem := (micros - day * microsPerDay).toNat
  let s := rem / 1000000
  (civilFromDays (day + refEpochDays), (s / 3600, s % 3600 / 60, s % 60, rem % 1000000))

/-- Leap-year test (proleptic Gregorian). -/
def isLeapYear (y : ℤ) : Bool :=
  (Int.emod y 4 == 0 && !(Int.emod y 100 == 0)) || Int.emod y 400 == 0

/-- Days in a month of a given year. -/
def daysInMonth (y : ℤ) (m : ℕ) : ℕ :=
  if m = 2 then (if isLeapYear y then 29 else 28)
  else if m = 4 ∨ m = 6 ∨ m = 9 ∨ m = 11 then 30
  else 31

/-! ## RecordLocator: magic-marker occurrence offsets and ranges -/

/-- The 8-byte magic sequence that opens a binary property list. -/
def bplistMagic : List Nat := strBytes "bplist00"

/-- All offsets of the magic sequence in the buffer, in increasing order: the
specification-level occurrence list `offset_0 < offset_1 < ...` the produced
range lists are compared against. -/
def occList (data : List Nat) : List Nat :=
  (List.range data.length).filter (fun i => subAt data bplistMagic i)

/-- Magic occurrences at offset `start` or later. -/
def occFrom (data : List Nat) (start : Nat) : List Nat :=
  (occList data).filter (fun i => decide (start ≤ i))

/-- Ranges `[offset_i, offset_(i+1))` over consecutive offsets, the final
range extending to the buffer length. -/
def segsOf : List Nat → Nat → List (Nat × Nat)
  | [], _ => []
  | [o], len => [(o, len)]
  | o1 :: o2 :: rest, len => (o1, o2) :: segsOf (o2 :: rest) len

namespace ParseCallLogs

/-- The `while` loop of `find_bplist_boundaries` from
`src/parse_call_logs.py` (lines 87-100), with the loop variable `pos` as the
recursion argument: find the next `bplist00` at or after `pos`; if none,
stop; otherwise find the following occurrence, emit `(start, end)` (or
`(start, len(data))` and stop when there is none) and continue from `end`. -/
def fbbLoop (data : List Nat) (pos : Nat) : List (Nat × Nat) :=
  match h1 : findSubFrom data bplistMagic pos with
  | none => []
  | some s =>
    match h2 : findSubFrom data bplistMagic (s + 8) with
    | none => [(s, data.length)]
    | some e => (s, e) :: fbbLoop data e
  termination_by data.length - pos
  decreasing_by
    unfold findSubFrom at h1 h2
    have m1 := List.mem_range'_1.mp (List.mem_of_find?_eq_some h1)
    have m2 := List.mem_range'_1.mp (List.mem_of_find?_eq_some h2)
    have p2 : subAt data bplistMagic e = true := List.find?_some h2
    unfold subAt at p2
    rw [decide_eq_true_eq] at p2
    have hl := congrArg List.length p2
    simp only [List.length_take, List.length_drop] at hl
    have h8 : bplistMagic.length = 8 := by decide
    omega

/-- `find_bplist_boundaries` from `src/parse_call_logs.py` (lines 87-100). -/
def find_bplist_boundaries (data : List Nat) : List (Nat × Nat) :=
  fbbLoop data 0

end ParseCallLogs

namespace TimestampParser

/-- The `while` loop of `find_plist_boundaries` from
`src/timestamp_parser.py` (lines 39-52).  It differs from the
`parse_call_logs.py` loop only in continuing with `start = len(data)` (one
more iteration that finds nothing) after emitting the final range. -/
def fpbLoop (data : List Nat) (start : Nat) : List (Nat × Nat) :=
  match h1 : findSubFrom data bplistMagic start with
  | none => []
  | some s =>
    match h2 : findSubFrom data bplistMagic (s + 8) with
    | none => (s, data.length) :: fpbLoop data data.length
    | some e => (s, e) :: fpbLoop data e
  termination_by data.length - start
  decreasing_by
  · unfold findSubFrom at h1
    have m1 := List.mem_range'_1.mp (List.mem_of_find?_eq_some h1)
    have p1 : subAt data bplistMagic s = true := List.find?_some h1
    unfold subAt at p1
    rw [decide_eq_true_eq] at p1
    have hl := congrArg List.length p1
    simp only [List.length_take, List.length_drop] at hl
    have h8 : bplistMagic.length = 8 := by decide
    omega
  · unfold findSubFrom at h1 h2
    have m1 := List.mem_range'_1.mp (List.mem_of_find?_eq_some h1)
    have m2 := List.mem_range'_1.mp (List.mem_of_find?_eq_some h2)
    have p2 : subAt data bplistMagic e = true := List.find?_some h2
    unfold subAt at p2
    rw [decide_eq_true_eq] at p2
    have hl := congrArg List.length p2
    simp only [List.length_take, List.length_drop] at hl
    have h8 : bplistMagic.length = 8 := by decide
    omega

/-- `find_plist_boundaries` from `src/timestamp_parser.py` (lines 39-52). -/
def find_plist_boundaries (data : List Nat) : List (Nat × Nat) :=
  fpbLoop data 0

end TimestampParser

namespace NewLogParser

/-- `standardize_phone_number` from `src/new-log-parser.py` (lines 56-77):
the spec's PhoneNumberNormalizer.  Filters the input down to its digits with
`filter(str.isdigit, phone)` and canonicalizes by length, returning `none`
("absent, not an error") for fewer than 10 digits.  Python's `str.isdigit`
is true of every character of Unicode numeric type Decimal or Digit — the
ASCII digits plus code points such as the superscript two or the
Arabic-Indic digits.  That character class is data of the runtime's Unicode
tables, so the digit predicate is taken as an explicit parameter `isdig` and
the claim is proved for EVERY predicate, hence in particular for the
runtime's `str.isdigit`; every subsequent step (`len`, `startswith('1')`,
slicing, concatenation) is predicate-independent, and on ASCII characters
any faithful instance agrees with `Char.isDigit`. -/
def standardize_phone_number (isdig : Char → Bool) (phone : String) : Option String :=
  if phone = "" then none
  else
    let digits : List Char := phone.data.filter isdig
    if digits.length = 10 then some (String.mk ('+' :: '1' :: digits))
    else if digits.length = 11 ∧ digits.take 1 = ['1'] then
      some (String.mk ('+' :: digits))
    else if digits.length = 11 then
      some (String.mk ('+' :: '1' :: digits.drop (digits.length - 10)))
    else if 11 < digits.length then
      if digits.take 1 = ['1'] then some (String.mk ('+' :: digits.take 11))
      else some (String.mk ('+' :: '1' :: digits.take 10))
    else none

end NewLogParser

namespace LogParser

/-- `parse_wns_time` from `src/log-parser.py` (lines 10-24), shared verbatim
by `src/new-log-parser.py` and (modulo debug prints) `src/exp-parser.py` and
`src/parse_call_logs.py`: skip the 9-byte `WNS.time#` marker at `start_idx`,
take the next 8 bytes, unpack them as a big-endian double of seconds and add
them to the reference date 2001-01-01.  Returns `none` when fewer than 8
bytes remain, and on every exception path (non-finite double, datetime
overflow), which the source catches and converts to `None`. -/
def parse_wns_time (data : List Nat) (start_idx : Nat) : Option ℤ :=
  let ts := (data.drop (start_idx + 9)).take 8
  if ts.length = 8 then
    match doubleToMicros ts with
    | none => none
    | some m => clampDatetime m
  else none

/-- Check that a 36-byte list matches the UUID body of the regex
`\$([A-F0-9]{8}-[A-F0-9]{4}-[A-F0-9]{4}-[A-F0-9]{4}-[A-F0-9]{12})`
(src/log-parser.py line 46): dashes at offsets 8, 13, 18, 23 and uppercase
hex digits elsewhere. -/
def checkUuidBytes (bs : List Nat) : Bool :=
  bs.length == 36 &&
    (List.range 36).all (fun k =>
      match bs.get? k with
      | some b =>
        if k == 8 || k == 13 || k == 18 || k == 23 then b == 45
        else isDigitByte b || (65 ≤ b && b ≤ 70)
      | none => false)

/-- `re.search` of the UUID pattern over a transaction's bytes (leftmost `$`
immediately followed by a well-formed uppercase UUID); returns the 36 bytes
of the capture group. -/
def firstUuid (td : List Nat) : Option (List Nat) :=
  ((List.range (td.length + 1)).find? (fun i =>
      (td.get? i == some 36) && checkUuidBytes ((td.drop (i + 1)).take 36))).map
    (fun i => (td.drop (i + 1)).take 36)

/-- Leftmost regex-style search: the least start index at which the position
matcher succeeds, paired with the matcher's result. -/
def searchLeftmost {α : Type} (td : List Nat) (f : Nat → Option α) : Option (Nat × α) :=
  (List.range (td.length + 1)).findSome? (fun i => (f i).map (fun a => (i, a)))

/-- `n` consecutive digit bytes starting at `p`. -/
def digitsAt (td : List Nat) (p n : Nat) : Bool :=
  (List.range n).all (fun t => isDigitAt td (p + t))

/-- Lookbehind `(?<=[^0-9])`: a preceding character exists and is not a
digit. -/
def nonDigitBefore (td : List Nat) (i : Nat) : Bool :=
  match i, td.get? (i - 1) with
  | 0, _ => false
  | _ + 1, some b => !isDigitByte b
  | _ + 1, none => false

/-- Lookahead `(?=[^0-9])` at position `j`: a character exists there and is
not a digit. -/
def nonDigitAfter (td : List Nat) (j : Nat) : Bool :=
  match td.get? j with
  | some b => !isDigitByte b
  | none => false

/-- The separator class `[-\.\s]`. -/
def isSepByte (b : Nat) : Bool :=
  b == 45 || b == 46 || isWsByte b

/-- Separator byte present at position `p`. -/
def sepAt (td : List Nat) (p : Nat) : Bool :=
  match td.get? p with
  | some b => isSepByte b
  | none => false

namespace LogParser

/-- Phone pattern 1, `(?:\\\\|\+)\+?(\d{10,})` (src/log-parser.py line 69):
two literal backslashes or a `+`, an optional further `+`, then at least ten
digits (greedy maximal run).  Returns the length of the whole match. -/
def phonePat1At (td : List Nat) (i : Nat) : Option Nat :=
  let k : Option Nat :=
    if subAt td [92, 92] i then some 2
    else if td.get? i == some 43 then some 1
    else none
  match k with
  | none => none
  | some k =>
    let j := i + k
    let j' := if td.get? j == some 43 then j + 1 else j
    let run := digitRunLen td j'
    if 10 ≤ run then some (j' + run - i) else none

/-- Phone pattern 2, `\+(\d{10,})` (line 70). -/
def phonePat2At (td : List Nat) (i : Nat) : Option Nat :=
  if td.get? i == some 43 then
    let run := digitRunLen td (i + 1)
    if 10 ≤ run then some (1 + run) else none
  else none

/-- Phone pattern 3, `(?<=[^0-9])(\d{10})(?=[^0-9])` (line 71). -/
def phonePat3At (td : List Nat) (i : Nat) : Option Nat :=
  if nonDigitBefore td i && digitsAt td i 10 && nonDigitAfter td (i + 10) then some 10
  else none

/-- Phone pattern 4, `(?<=[^0-9])(\d{3}[-\.\s]\d{3}[-\.\s]\d{4})(?=[^0-9])`
(line 72). -/
def phonePat4At (td : List Nat) (i : Nat) : Option Nat :=
  if nonDigitBefore td i && digitsAt td i 3 && sepAt td (i + 3) &&
      digitsAt td (i + 4) 3 && sepAt td (i + 7) && digitsAt td (i + 8) 4 &&
      nonDigitAfter td (i + 12) then
    some 12
  else none

/-- Phone pattern 5, `(?<=[^0-9])\((\d{3})\)\s*\d{3}[-\.\s]\d{4}(?=[^0-9])`
(line 73).  The greedy `\s*` is deterministic: a shorter whitespace run would
leave a whitespace character where a digit is required. -/
def phonePat5At (td : List Nat) (i : Nat) : Option Nat :=
  if nonDigitBefore td i && (td.get? i == some 40) && digitsAt td (i + 1) 3 &&
      (td.get? (i + 4) == some 41) then
    let w := wsRunLen td (i + 5)
    if digitsAt td (i + 5 + w) 3 && sepAt td (i + 8 + w) && digitsAt td (i + 9 + w) 4 &&
        nonDigitAfter td (i + 13 + w) then
      some (13 + w)
    else none
  else none

/-- Phone pattern 6, `(?<=[^0-9])(\d{3})\s+\d{3}\s+\d{4}(?=[^0-9])` (line 74);
the greedy `\s+` runs are deterministic as in pattern 5. -/
def phonePat6At (td : List Nat) (i : Nat) : Option Nat :=
  if nonDigitBefore td i && digitsAt td i 3 then
    let w1 := wsRunLen td (i + 3)
    if 1 ≤ w1 && digitsAt td (i + 3 + w1) 3 then
      let w2 := wsRunLen td (i + 6 + w1)
      if 1 ≤ w2 && digitsAt td (i + 6 + w1 + w2) 4 && nonDigitAfter td (i + 10 + w1 + w2) then
        some (10 + w1 + w2)
      else none
    else none
  else none

/-- The ordered phone patterns of `extract_call_metadata` (src/log-parser.py
lines 68-75). -/
def phonePatterns : List (List Nat → Nat → Option Nat) :=
  [phonePat1At, phonePat2At, phonePat3At, phonePat4At, phonePat5At, phonePat6At]

/-- The phone-extraction loop (src/log-parser.py lines 77-88): the first
pattern with a match wins; the whole match is decoded and backslashes
removed; a decode failure falls through to the next pattern (the source's
`except: continue`). -/
def extractPhoneFrom (td : List Nat) : List (List Nat → Nat → Option Nat) → Option String
  | [] => none
  | p :: ps =>
    match searchLeftmost td (fun i => p td i) with
    | some (i, len) =>
      match strOfBytes ((td.drop i).take len) with
      | some s => some (String.mk (s.data.filter (fun c => c ≠ '\\')))
      | none => extractPhoneFrom td ps
    | none => extractPhoneFrom td ps

/-- Phone-number field of one transaction. -/
def extractPhone (td : List Nat) : Option String :=
  extractPhoneFrom td phonePatterns

/-- Uppercase ASCII letter byte. -/
def isUpperByte (b : Nat) : Bool :=
  65 ≤ b && b ≤ 90

/-- ASCII letter byte. -/
def isLetterByte (b : Nat) : Bool :=
  isUpperByte b || (97 ≤ b && b ≤ 122)

/-- The name-pattern inner class `[A-Za-z\s]`. -/
def isNameClassByte (b : Nat) : Bool :=
  isLetterByte b || isWsByte b

/-- Uppercase letter present at position `p`. -/
def upperAt (td : List Nat) (p : Nat) : Bool :=
  match td.get? p with
  | some b => isUpperByte b
  | none => false

/-- Position matcher for the contact-name regex
`_([A-Z][A-Za-z\s]{2,}[A-Z])(?=\s|$)` (src/log-parser.py line 91): `_`, an
uppercase letter, then a greedy run of letters/whitespace backtracked to the
largest `k ≥ 2` such that the character after those `k` is uppercase and is
itself followed by whitespace or the end of the data (without `re.MULTILINE`,
`$` before a final newline is subsumed by `\s`).  Returns the group length
`k + 2`. -/
def nameMatchAt (td : List Nat) (i : Nat) : Option Nat :=
  if (td.get? i == some 95) && upperAt td (i + 1) then
    let m := ((td.drop (i + 2)).takeWhile isNameClassByte).length
    ((List.range m).reverse.find? (fun k =>
        2 ≤ k && upperAt td (i + 2 + k) &&
          (decide (i + 3 + k = td.length) ||
            (match td.get? (i + 3 + k) with
             | some b => isWsByte b
             | none => false)))).map (fun k => k + 2)
  else none

/-- Contact-name extraction (src/log-parser.py lines 90-98): leftmost match,
decoded, accepted unless it is `VNSUUID`, of length at most 3, or starts with
`WNS`. -/
def extractName (td : List Nat) : Option String :=
  match searchLeftmost td (nameMatchAt td) with
  | some (i, glen) =>
    match strOfBytes ((td.drop (i + 1)).take glen) with
    | some s =>
      if s ≠ "VNSUUID" ∧ 3 < s.data.length ∧ s.data.take 3 ≠ ['W', 'N', 'S'] then some s
      else none
    | none => none
  | none => none

/-- Service/type detection (src/log-parser.py lines 100-108):
`com.apple.Telephony` wins over `com.apple.FaceTime`; the result is the
`(call type, service)` pair written into the record. -/
def serviceOf (td : List Nat) : Option (String × String) :=
  if containsSub td (strBytes "com.apple.Telephony") then
    some ("cellular", "com.apple.Telephony")
  else if containsSub td (strBytes "com.apple.FaceTime") then
    some ("facetime", "com.apple.FaceTime")
  else none

/-- `True` iff the duration regex `duration\x10(\d{1,4})` (src/log-parser.py
line 149) matches somewhere: the literal `duration`, the byte `0x10`, then at
least one digit. -/
def hasDurationPattern (td : List Nat) : Bool :=
  ((List.range (td.length + 1)).find? (fun i =>
      subAt td (strBytes "duration") i && (td.get? (i + 8) == some 16) &&
        isDigitAt td (i + 9))).isSome

/-- A raised Python exception. -/
inductive PyExc where
  | nameError (name : String)
  deriving DecidableEq

/-- Result fields of `parse_call_properties` (src/log-parser.py lines
140-153). -/
structure LpProps where
  direction : Option String
  duration : Option Nat
  deriving DecidableEq

/-- `parse_call_properties` from `src/log-parser.py` (lines 140-153):
direction from the binary flags `\x10\x01` / `\x10\x02`; duration from the
regex `duration\x10(\d{1,4})`.  The module never defines
`validate_duration`, so as soon as the duration regex matches, evaluating
`validate_duration(int(...))` raises `NameError` — embedded as the `error`
result.  A successful result therefore never carries a duration. -/
def parse_call_properties (td : List Nat) : Except PyExc LpProps :=
  let direction : Option String :=
    if containsSub td [16, 1] then some "incoming"
    else if containsSub td [16, 2] then some "outgoing"
    else none
  if hasDurationPattern td then Except.error (PyExc.nameError "validate_duration")
  else Except.ok { direction := direction, duration := none }

/-- Timestamp extraction (src/log-parser.py lines 118-121): find the literal
`WNS.time#` and decode from there. -/
def extractTimestamp (td : List Nat) : Option ℤ :=
  match findSub td (strBytes "WNS.time#") with
  | some i => parse_wns_time td i
  | none => none

/-- Junk-confidence extraction (src/log-parser.py lines 123-131), regex
`junkConfidence\D*(\d{1,3})(?!\d)`: after an occurrence of the literal,
`\D*` greedily skips to the first digit; the digit run there must be 1 to 3
long (a longer run fails and the search moves to the next occurrence of the
literal); the value is kept only if at most 100. -/
def extractJunk (td : List Nat) : Option Nat :=
  match
    (List.range (td.length + 1)).findSome? (fun i =>
      if subAt td (strBytes "junkConfidence") i then
        let j := i + 14 + nonDigitRunLen td (i + 14)
        let r := digitRunLen td j
        if 1 ≤ r && r ≤ 3 then some ((td.drop j).take r) else none
      else none)
  with
  | some digits =>
    let confidence := natOfDigits digits
    if confidence ≤ 100 then some confidence else none
  | none => none

/-- One call record of `extract_call_metadata` (src/log-parser.py lines
55-65). -/
structure Call where
  id : String
  number : Option String
  name : Option String
  timestamp : Option ℤ
  duration : Option Nat
  type : Option String
  direction : Option String
  junk_confidence : Option Nat
  service : Option String
  deriving DecidableEq

/-- The state threaded through `extract_call_metadata`'s transaction loop:
the `seen_calls` set, the `stats` counter dictionary (an insertion-ordered
association list, as a Python `defaultdict(int)`), and the accumulated
`calls` list. -/
structure LpState where
  seen : List String
  stats : List (String × Nat)
  calls : List Call
  deriving DecidableEq

/-- `defaultdict(int)` increment `stats[k] += 1`. -/
def bumpStat (stats : List (String × Nat)) (k : String) : List (String × Nat) :=
  if (stats.lookup k).isSome then
    stats.map (fun p => if p.1 = k then (p.1, p.2 + 1) else p)
  else stats ++ [(k, 1)]

/-- Python `k in stats`. -/
def statMem (stats : List (String × Nat)) (k : String) : Bool :=
  (stats.lookup k).isSome

/-- The record built for one transaction once its uuid has passed the
duplicate check and `parse_call_properties` has returned without raising
(src/log-parser.py lines 55-131): every remaining field is an independent
function of the transaction's bytes alone. -/
def mkCall (td : List Nat) (call_id : String) (props : LpProps) : Call :=
  { id := call_id
    number := extractPhone td
    name := extractName td
    timestamp := extractTimestamp td
    duration := props.duration
    type := (serviceOf td).map Prod.fst
    direction := props.direction
    junk_confidence := extractJunk td
    service := (serviceOf td).map Prod.snd }

/-- One iteration of the transaction loop of `extract_call_metadata`
(src/log-parser.py lines 41-136).  A missing uuid (or a uuid whose decode
fails) skips the transaction; a duplicate uuid skips it; otherwise the uuid
is added to `seen`, the service stats are bumped, and then
`parse_call_properties` runs — a raised `NameError` there is caught by the
per-record handler, dropping the record (but keeping the earlier `seen`
insertion and stats bump).  The direction stats update
(`if call['direction'] in metadata['stats']`) fires only for keys already in
the stats dictionary. -/
def processTransaction (st : LpState) (td : List Nat) : LpState :=
  match firstUuid td with
  | none => st
  | some idBytes =>
    match strOfBytes idBytes with
    | none => st
    | some call_id =>
      if call_id ∈ st.seen then st
      else
        let seen' := st.seen ++ [call_id]
        let stats1 :=
          match serviceOf td with
          | some (t, _) => bumpStat st.stats t
          | none => st.stats
        match parse_call_properties td with
        | Except.error _ => { seen := seen', stats := stats1, calls := st.calls }
        | Except.ok props =>
          let stats2 :=
            match props.direction with
            | some d => if statMem stats1 d then bumpStat stats1 d else stats1
            | none => stats1
          { seen := seen'
            stats := stats2
            calls := st.calls ++ [mkCall td call_id props] }

/-- `find_transactions` from `extract_call_metadata` (src/log-parser.py
lines 34-36): `re.finditer(b'bplist00.*?(?=bplist00|$)', data, re.DOTALL)`.
The lazy `.*?` bounded by the lookahead makes each match run from one magic
occurrence to the next — the same segmentation as `find_bplist_boundaries` —
except at the final match: `$` without `re.MULTILINE` matches at the end of
the buffer AND just before a buffer-final newline, so when the buffer ends
with the byte `0x0A` and the last segment reaches at least one byte past its
8-byte magic, the lazy `.*?` stops at that earlier `$` position and the final
transaction drops the trailing newline byte.  (Intermediate matches are
unaffected: their lookahead is satisfied first at the next magic occurrence,
which lies before both `$` positions.) -/
def find_transactions (data : List Nat) : List (List Nat) :=
  (segsOf (occList data) data.length).map (fun se =>
    let e :=
      if se.2 = data.length ∧ data.getLast? = some 10 ∧ se.1 + 8 ≤ data.length - 1
      then data.length - 1 else se.2
    (data.drop se.1).take (e - se.1))

/-- `extract_call_metadata` from `src/log-parser.py` (lines 25-138). -/
def extract_call_metadata (data : List Nat) : LpState :=
  (find_transactions data).foldl processTransaction { seen := [], stats := [], calls := [] }

/-- The sort key of `export_to_csv` (src/log-parser.py line 175, and
identically src/gemini.py lines 187-188):
`x['timestamp'] if x['timestamp'] else datetime.min`. -/
def sortKey (c : Call) : ℤ :=
  match c.timestamp with
  | some t => t
  | none => pyDatetimeMinMicros

/-- `sorted(calls, key=...)` of `export_to_csv`: Python's `sorted` is a
stable sort by the key, and a stable sort by a fixed key is extensionally
unique, so it is embedded as insertion sort, which is stable. -/
def sortCalls (calls : List Call) : List Call :=
  List.insertionSort (fun a b => sortKey a ≤ sortKey b) calls

end LogParser

namespace ExpParser

/-- `parse_field_length` from `src/exp-parser.py` (lines 37-44): marker byte
`0x10` selects one trailing length byte (2 bytes consumed), `0x11` two length
bytes big-endian (3 consumed), anything else `(0, 0)`.  The source indexes
`data[start_idx + 1]` / `data[start_idx + 2]` unguarded; a missing byte
raises `IndexError`, embedded as `none` (the caller lets it propagate). -/
def parse_field_length (data : List Nat) (start_idx : Nat) : Option (Nat × Nat) :=
  match data.get? start_idx with
  | none => none
  | some b =>
    if b = 16 then (data.get? (start_idx + 1)).map (fun l => (l, 2))
    else if b = 17 then
      match data.get? (start_idx + 1), data.get? (start_idx + 2) with
      | some hi, some lo => some (hi * 256 + lo, 3)
      | _, _ => none
    else some (0, 0)

/-- Result fields of exp-parser's `parse_call_properties` (lines 46-102). -/
structure ExpProps where
  direction : Option String
  duration : Option ℤ
  callType : Option String
  service : Option String
  callerIdLocation : Option String
  deriving DecidableEq

/-- The `direction_patterns` table of exp-parser's `parse_call_properties`
(lines 51-57). -/
def expDirectionPatterns : List (List Nat × List Nat × String) :=
  [(strBytes "outgoing", [16, 1], "outgoing"),
   (strBytes "incoming", [16, 2], "incoming"),
   (strBytes "missed", [16, 3], "missed"),
   (strBytes "rejected", [16, 4], "rejected"),
   (strBytes "blocked", [16, 5], "blocked")]

/-- The direction loop (lines 59-68): for each pattern name found, look for
the paired byte tag within 20 bytes; the first hit wins, a miss of either
part moves to the next pattern. -/
def expDirectionFrom (data : List Nat) :
    List (List Nat × List Nat × String) → Option String
  | [] => none
  | (nm, pat, dir) :: rest =>
    match findSub data nm with
    | some p =>
      match findSubInRange data pat p (p + 20) with
      | some _ => some dir
      | none => expDirectionFrom data rest
    | none => expDirectionFrom data rest

/-- Python whitespace as stripped by `int(str)`. -/
def pyIsSpaceChar (c : Char) : Bool :=
  c == ' ' || c == '\t' || c == '\n' || c == '\r' || c == '\x0c' || c == '\x0b'

/-- Python `int(s)` on a character list: optional surrounding whitespace,
optional sign, at least one digit; `none` models `ValueError`.  (Underscore
digit grouping, accepted by Python 3.6+, is not modelled; no claim depends
on it.) -/
def pyIntOfChars (cs : List Char) : Option ℤ :=
  let t1 := cs.dropWhile pyIsSpaceChar
  let t2 := (t1.reverse.dropWhile pyIsSpaceChar).reverse
  let sd : ℤ × List Char :=
    match t2 with
    | '+' :: rest => (1, rest)
    | '-' :: rest => (-1, rest)
    | rest => (1, rest)
  if sd.2 ≠ [] ∧ sd.2.all (fun c => c.isDigit) then
    some (sd.1 * ((sd.2.foldl (fun a c => a * 10 + (c.toNat - 48)) 0 : ℕ) : ℤ))
  else none

/-- The duration block of exp-parser's `parse_call_properties` (lines
70-84): after the literal `duration`, read a field length; the sanity check
`0 < length < 86400` is applied to the LENGTH; then that many bytes are
ASCII-decoded and `int`-parsed, a decode or parse failure being caught and
merely skipping the field.  An `IndexError` from `parse_field_length`
propagates (`error`). -/
def expDuration (data : List Nat) : Except Unit (Option ℤ) :=
  match findSub data (strBytes "duration") with
  | none => Except.ok none
  | some p =>
    let pos := p + 8
    if pos < data.length then
      match parse_field_length data pos with
      | none => Except.error ()
      | some lc =>
        if 0 < lc.1 ∧ lc.1 < 86400 then
          let db := (data.drop (pos + lc.2)).take lc.1
          if db.all (fun b => b ≤ 127) then
            match pyIntOfChars (db.map Char.ofNat) with
            | some v => Except.ok (some v)
            | none => Except.ok none
          else Except.ok none
        else Except.ok none
    else Except.ok none

/-- The generic text-field block of exp-parser's `parse_call_properties`
(lines 87-100): after the literal field name, read a field length (`0 < len`
only) and UTF-8-decode that many bytes; decode failures are caught and skip
the field, an `IndexError` propagates. -/
def expTextField (data : List Nat) (nm : List Nat) : Except Unit (Option String) :=
  match findSub data nm with
  | none => Except.ok none
  | some p =>
    let pos := p + nm.length
    if pos < data.length then
      match parse_field_length data pos with
      | none => Except.error ()
      | some lc =>
        if 0 < lc.1 then
          match strOfBytes ((data.drop (pos + lc.2)).take lc.1) with
          | some s => Except.ok (some s)
          | none => Except.ok none
        else Except.ok none
    else Except.ok none

/-- `parse_call_properties` from `src/exp-parser.py` (lines 46-102):
direction, duration, then the three text fields, in source order; the first
uncaught `IndexError` aborts (and the caller's per-record handler then drops
the record). -/
def parse_call_properties (data : List Nat) : Except Unit ExpProps :=
  let direction := expDirectionFrom data expDirectionPatterns
  match expDuration data with
  | Except.error e => Except.error e
  | Except.ok dur =>
    match expTextField data (strBytes "callType") with
    | Except.error e => Except.error e
    | Except.ok ct =>
      match expTextField data (strBytes "service") with
      | Except.error e => Except.error e
      | Except.ok sv =>
        match expTextField data (strBytes "callerIdLocation") with
        | Except.error e => Except.error e
        | Except.ok loc =>
          Except.ok { direction := direction, duration := dur, callType := ct,
                      service := sv, callerIdLocation := loc }

/-- `standardize_phone_number` from `src/exp-parser.py` (lines 104-115): a
bare `+`-prefixer over the digit projection ('Unknown' passes through); the
`startswith('+')` test is kept although a digit projection can never start
with `+`. -/
def standardize_phone_number (number : String) : String :=
  if number = "" ∨ number = "Unknown" then "Unknown"
  else
    let digits := number.data.filter Char.isDigit
    if digits.take 1 = ['+'] then String.mk digits
    else String.mk ('+' :: digits)

/-- `adjust_timestamp` from `src/exp-parser.py` (lines 240-248): if the
year exceeds 2024, replace it by year − 115 (`ValueError`, embedded as
`none`, if the day does not exist in the target month, e.g. Feb 29); then
subtract 5 hours (an `OverflowError`, also `none`, if that leaves the
datetime range). -/
def adjust_timestamp (m : ℤ) : Option ℤ :=
  let y := (microsToCivil m).1.1
  let mo := (microsToCivil m).2.1
  let d := (microsToCivil m).2.2.1
  let tod : ℤ := m - Int.fdiv m microsPerDay * microsPerDay
  let step1 : Option ℤ :=
    if 2024 < y then
      if d ≤ daysInMonth (y - 115) mo then
        some ((daysFromCivil (y - 115) mo d - refEpochDays) * microsPerDay + tod)
      else none
    else some m
  match step1 with
  | none => none
  | some m1 =>
    if pyDatetimeMinMicros ≤ m1 - 18000000000 then some (m1 - 18000000000) else none

/-- The sort key of exp-parser's `export_to_csv` (line 297):
`adjust_timestamp(x['timestamp']) if x['timestamp'] else datetime.min`.  The
`getD 0` placeholder is only reachable when `adjust_timestamp` raises, in
which case the whole export aborts (see
`export_call_timestamp_column`). -/
def expSortKey (c : LogParser.Call) : ℤ :=
  match c.timestamp with
  | some t => (adjust_timestamp t).getD 0
  | none => pyDatetimeMinMicros

/-- The `Call Timestamp` column produced by exp-parser's `export_to_csv`
(lines 296-313): records sorted by the adjusted-timestamp key, each row's
timestamp cell holding `adjust_timestamp` of the decoded timestamp (empty
for null).  Modelled as the list of adjusted datetime values in row order;
the per-number First/Last/Count columns and the string formatting do not
feed back into this column.  If `adjust_timestamp` raises on any present
timestamp, the enclosing `try` aborts the whole export (`none`). -/
def export_call_timestamp_column (calls : List LogParser.Call) :
    Option (List (Option ℤ)) :=
  if calls.all (fun c =>
      match c.timestamp with
      | some t => (adjust_timestamp t).isSome
      | none => true) then
    some ((List.insertionSort (fun a b => expSortKey a ≤ expSortKey b) calls).map
      (fun c => c.timestamp.map (fun t => (adjust_timestamp t).getD 0)))
  else none

end ExpParser

/-- The generic tagged value graph produced by the binary-plist decoder
(biplist), the spec's `PlistValue`: a closed union over strings, integers,
reals, booleans, dates, binary data, arrays and dictionaries. -/
inductive PlistValue where
  | str : String → PlistValue
  | int : ℤ → PlistValue
  | real : ℚ → PlistValue
  | boolean : Bool → PlistValue
  | date : ℤ → PlistValue
  | data : List Nat → PlistValue
  | array : List PlistValue → PlistValue
  | dict : List (String × PlistValue) → PlistValue

namespace Gemini

/-- Lowercase hex digit. -/
def hexDigitChar (n : Nat) : Char :=
  if n < 10 then Char.ofNat (48 + n) else Char.ofNat (87 + n)

/-- `str(uuid.UUID(bytes=b))`: canonical lowercase 8-4-4-4-12 rendering of
exactly 16 bytes; `none` models the `ValueError` for any other length. -/
def uuidStrOfBytes (b : List Nat) : Option String :=
  if b.length = 16 then
    let hx := (b.map (fun x => [hexDigitChar (x / 16 % 16), hexDigitChar (x % 16)])).join
    some (String.mk (hx.take 8 ++ ['-'] ++ (hx.drop 8).take 4 ++ ['-'] ++
      (hx.drop 12).take 4 ++ ['-'] ++ (hx.drop 16).take 4 ++ ['-'] ++ hx.drop 20))
  else none

/-- `parse_wns_time` from `src/gemini.py` (lines 291-295), used by
`decode_call_record` for `date` fields stored as bytes: `struct.unpack` a
big-endian double (a `struct.error`, embedded as `error`, unless exactly
8 bytes) and add to the reference date (`OverflowError`/`ValueError` for
non-finite or out-of-range values, also `error`). -/
def gemini_parse_wns_time (b : List Nat) : Except Unit ℤ :=
  if b.length = 8 then
    match doubleToMicros b with
    | none => Except.error ()
    | some m =>
      match clampDatetime m with
      | some v => Except.ok v
      | none => Except.error ()
  else Except.error ()

/-- The recognized plain keys of `decode_call_record`'s elif chain
(src/gemini.py lines 329-407), stored unchanged. -/
def recognizedKeys : List String :=
  ["unreadCount", "handleType", "callStatus", "isoCountryCode", "serviceRadar", "duration",
   "uniqueId", "callerIdAvailability", "bytesOfDataUsed", "callCategory",
   "verificationStatus", "devicePhoneId", "mobileCountryCode", "remoteParticipantHandles",
   "imageURL", "name", "hasMessage", "conversationIDX", "callerId", "callType",
   "read", "junkConfidence", "callerIdLocation", "timeToEstablish", "disconnectedCause",
   "junkIdentificationCategory", "mobileNetworkCode", "mediaType"]

/-- The keys whose byte values are rendered as canonical UUID strings. -/
def uuidKeys : List String :=
  ["localParticipantUUID", "participantGroupUUID", "outgoingLocalParticipantUUID"]

/-- Processing of one `(key, value)` pair by the elif chain: UUID-typed keys
convert 16-byte values (a bad length raising `ValueError`), `date` converts
byte values through `parse_wns_time`, recognized keys copy, unrecognized
keys are ignored. -/
def decodeField (k : String) (v : PlistValue) : Except Unit (Option (String × PlistValue)) :=
  if k ∈ uuidKeys then
    match v with
    | PlistValue.data b =>
      match uuidStrOfBytes b with
      | some s => Except.ok (some (k, PlistValue.str s))
      | none => Except.error ()
    | _ => Except.ok (some (k, v))
  else if k = "date" then
    match v with
    | PlistValue.data b => (gemini_parse_wns_time b).map (fun m => some (k, PlistValue.date m))
    | _ => Except.ok (some (k, v))
  else if k ∈ recognizedKeys then Except.ok (some (k, v))
  else Except.ok none

/-- The field-collection loop of `decode_call_record` over the root
dictionary's items, in insertion order; the first raised exception aborts. -/
def extractFields : List (String × PlistValue) → Except Unit (List (String × PlistValue))
  | [] => Except.ok []
  | (k, v) :: rest =>
    match decodeField k v with
    | Except.error e => Except.error e
    | Except.ok none => extractFields rest
    | Except.ok (some kv) => (extractFields rest).map (fun l => kv :: l)

/-- The three observable outcomes of `decode_call_record`: a decoded record,
the non-fatal "not a call record" shape rejection (logged as a warning, the
three `return None` branches at src/gemini.py lines 308-321), or a decode
failure (logged as an error in the `except` handlers at lines 410-418). -/
inductive DecodeOutcome where
  | success : List (String × PlistValue) → DecodeOutcome
  | notCallRecord : DecodeOutcome
  | decodeFailure : DecodeOutcome

/-- `decode_call_record` from `src/gemini.py` (lines 297-418) (and, modulo
logging and the UUID-byte conversions, `src/raw.py` lines 19-131).  The
argument is the result of the hex-cleaning + `biplist.read` stage: `ok` a
decoded `PlistValue`, `error` any exception raised there (invalid plist,
`struct.error`, anything else) — every such exception is caught and becomes
a decode failure, never a propagated fault; the Lean function is total.  On
structural success the top-level value must be a dictionary with a `root`
key holding a dictionary, else the outcome is `notCallRecord`. -/
def decode_call_record (r : Except String PlistValue) : DecodeOutcome :=
  match r with
  | Except.error _ => DecodeOutcome.decodeFailure
  | Except.ok v =>
    match v with
    | PlistValue.dict entries =>
      match List.lookup "root" entries with
      | none => DecodeOutcome.notCallRecord
      | some (PlistValue.dict rootEntries) =>
        match extractFields rootEntries with
        | Except.ok flds => DecodeOutcome.success flds
        | Except.error _ => DecodeOutcome.decodeFailure
      | some _ => DecodeOutcome.notCallRecord
    | _ => DecodeOutcome.notCallRecord

end Gemini

/-- Well-formed uppercase UUID string: 36 characters, dashes at positions
8, 13, 18, 23, uppercase hex digits elsewhere (the spec's "valid
uniqueId"). -/
def isValidUuidString (s : String) : Bool :=
  s.data.length == 36 &&
    (List.range 36).all (fun k =>
      match s.data.get? k with
      | some c =>
        if k == 8 || k == 13 || k == 18 || k == 23 then c == '-'
        else (('0' ≤ c && c ≤ '9') || ('A' ≤ c && c ≤ 'F'))
      | none => false)

/-! ## Theorems -/

/-! ### find? / range' characterizations -/

/-- A successful `find?` over `range'` returns the least index in the range
satisfying the predicate. -/
theorem find?_range'_some {p : Nat → Bool} {n : Nat} :
    ∀ {start i : Nat}, (List.range' start n).find? p = some i →
      start ≤ i ∧ i < start + n ∧ p i = true ∧
        ∀ j, start ≤ j → j < i → p j = false := by
  induction n with
  | zero => intro start i h; simp [List.range'] at h
  | succ n ih =>
    intro start i h
    rw [List.range'_succ] at h
    by_cases hp : p start
    · rw [List.find?_cons_of_pos _ hp] at h
      obtain rfl : start = i := by injection h
      exact ⟨le_rfl, by omega, hp, fun j h1 h2 => absurd (lt_of_le_of_lt h1 h2) (lt_irrefl _)⟩
    · rw [List.find?_cons_of_neg _ hp] at h
      obtain ⟨ha, hb, hc, hd⟩ := ih h
      refine ⟨by omega, by omega, hc, ?_⟩
      intro j h1 h2
      rcases Nat.eq_or_lt_of_le h1 with rfl | hgt
      · exact eq_false_of_ne_true hp
      · exact hd j hgt h2

/-- A failed `find?` over `range'` means no index in the range satisfies the
predicate. -/
theorem find?_range'_none {p : Nat → Bool} {start n : Nat}
    (h : (List.range' start n).find? p = none) :
    ∀ j, start ≤ j → j < start + n → p j = false := by
  intro j h1 h2
  have hmem : j ∈ List.range' start n := List.mem_range'_1.mpr ⟨h1, h2⟩
  have := List.find?_eq_none.mp h j hmem
  simpa using this

/-! ### Substring-occurrence lemmas -/

/-- An occurrence of `sub` at `i` needs `sub.length` bytes of room. -/
theorem subAt_le_length {data sub : List Nat} {i : Nat}
    (h : subAt data sub i = true) (hpos : 0 < sub.length) :
    i + sub.length ≤ data.length := by
  have heq := of_decide_eq_true h
  have hl := congrArg List.length heq
  simp only [List.length_take, List.length_drop] at hl
  omega

/-- Pointwise reading of an occurrence of `sub` at `i`. -/
theorem subAt_get {data sub : List Nat} {i : Nat} (h : subAt data sub i = true) :
    ∀ t, t < sub.length → data[i + t]? = sub[t]? := by
  intro t ht
  have heq := of_decide_eq_true h
  have := congrArg (fun l => l[t]?) heq
  simpa [List.getElem?_take_of_lt ht, List.getElem?_drop] using this

/-- `bplist00` cannot overlap itself: two distinct occurrences are at least
8 bytes apart. -/
theorem magic_no_overlap {data : List Nat} {i j : Nat}
    (hi : subAt data bplistMagic i = true) (hj : subAt data bplistMagic j = true)
    (hij : i < j) : i + 8 ≤ j := by
  by_contra hlt
  have h8 : bplistMagic.length = 8 := by decide
  have hk1 : 1 ≤ j - i := by omega
  have hk2 : j - i < 8 := by omega
  have e1 := subAt_get hi (j - i) (by omega)
  have e2 := subAt_get hj 0 (by omega)
  have hidx : i + (j - i) = j + 0 := by omega
  rw [hidx] at e1
  have hcontr : bplistMagic[j - i]? = bplistMagic[0]? := by
    rw [← e1, e2]
  revert hcontr
  set k := j - i with hk
  clear_value k
  interval_cases k <;> decide

/-- Unpacking of a successful `findSubFrom`. -/
theorem findSubFrom_some {data sub : List Nat} {start i : Nat}
    (h : findSubFrom data sub start = some i) :
    start ≤ i ∧ subAt data sub i = true ∧
      ∀ j, start ≤ j → j < i → subAt data sub j = false := by
  unfold findSubFrom at h
  obtain ⟨ha, _, hc, hd⟩ := find?_range'_some h
  exact ⟨ha, hc, hd⟩

/-- Unpacking of a failed `findSubFrom`. -/
theorem findSubFrom_none {data sub : List Nat} {start : Nat}
    (h : findSubFrom data sub start = none) :
    ∀ j, start ≤ j → j ≤ data.length → subAt data sub j = false := by
  unfold findSubFrom at h
  have hall := find?_range'_none h
  intro j h1 h2
  exact hall j h1 (by omega)

/-- `findSubFrom` started exactly at an occurrence returns that occurrence. -/
theorem findSubFrom_self {data sub : List Nat} {e : Nat}
    (hsub : subAt data sub e = true) (hle : e ≤ data.length) :
    findSubFrom data sub e = some e := by
  unfold findSubFrom
  have hn : data.length + 1 - e = (data.length - e) + 1 := by omega
  rw [hn, List.range'_succ]
  exact List.find?_cons_of_pos _ hsub

/-! ### Occurrence-list lemmas -/

theorem mem_occList {data : List Nat} {i : Nat} :
    i ∈ occList data ↔ i < data.length ∧ subAt data bplistMagic i = true := by
  simp [occList, List.mem_filter, List.mem_range, and_comm]

theorem occList_sorted (data : List Nat) : (occList data).Pairwise (· < ·) :=
  (List.pairwise_lt_range _).filter _

theorem occFrom_nil {data : List Nat} {pos : Nat}
    (h : findSubFrom data bplistMagic pos = none) : occFrom data pos = [] := by
  rw [occFrom, List.filter_eq_nil]
  intro i hi
  obtain ⟨hilen, hisub⟩ := mem_occList.mp hi
  simp only [decide_eq_true_eq]
  intro hpos
  have hfalse := findSubFrom_none h i hpos (by omega)
  rw [hisub] at hfalse
  cases hfalse

/-- Filtering a strictly sorted list at threshold `pos` whose least
`≥ pos` member is `s`, when every other `≥ pos` member is `≥ g > s`. -/
theorem filter_ge_cons_of_sorted {l : List Nat} {pos s g : Nat}
    (hsort : l.Pairwise (· < ·)) (hmem : s ∈ l) (hps : pos ≤ s)
    (hsplit : ∀ i ∈ l, pos ≤ i → i = s ∨ g ≤ i) (hsg : s < g) :
    l.filter (fun i => decide (pos ≤ i)) = s :: l.filter (fun i => decide (g ≤ i)) := by
  induction l with
  | nil => cases hmem
  | cons a t ih =>
    obtain ⟨hha, hht⟩ := List.pairwise_cons.mp hsort
    rcases List.mem_cons.mp hmem with rfl | hmem_t
    · have h1 : decide (pos ≤ s) = true := by simp [hps]
      have h2 : decide (g ≤ s) = false := by simp; omega
      rw [List.filter_cons, List.filter_cons, h1, h2]
      simp only [if_true, Bool.false_eq_true, if_false]
      congr 1
      apply List.filter_congr
      intro x hx
      have hlt := hha x hx
      rcases hsplit x (List.mem_cons_of_mem _ hx) (by omega) with rfl | hge
      · omega
      · simp [hge, show pos ≤ x by omega]
    · have has : a < s := hha s hmem_t
      have hna : ¬ pos ≤ a := by
        intro hpa
        rcases hsplit a (List.mem_cons_self _ _) hpa with rfl | hga
        · omega
        · omega
      have h1 : decide (pos ≤ a) = false := by simp [hna]
      have h2 : decide (g ≤ a) = false := by simp; omega
      rw [List.filter_cons, List.filter_cons, h1, h2]
      simp only [Bool.false_eq_true, if_false]
      exact ih hht hmem_t
        (fun i hi hp => hsplit i (List.mem_cons_of_mem _ hi) hp)

theorem occFrom_cons {data : List Nat} {pos s : Nat}
    (h : findSubFrom data bplistMagic pos = some s) :
    occFrom data pos = s :: occFrom data (s + 8) := by
  obtain ⟨hps, hsub, hmin⟩ := findSubFrom_some h
  have h8 : bplistMagic.length = 8 := by decide
  have hbound : s + 8 ≤ data.length := by
    have := subAt_le_length hsub (by omega)
    omega
  have hs_mem : s ∈ occList data := mem_occList.mpr ⟨by omega, hsub⟩
  have hsplit : ∀ i ∈ occList data, pos ≤ i → i = s ∨ s + 8 ≤ i := by
    intro i hi hpos
    obtain ⟨hilen, hisub⟩ := mem_occList.mp hi
    rcases Nat.lt_trichotomy i s with hlt | heq | hgt
    · have hfalse := hmin i hpos hlt
      rw [hisub] at hfalse
      cases hfalse
    · exact Or.inl heq
    · exact Or.inr (magic_no_overlap hsub hisub hgt)
  exact filter_ge_cons_of_sorted (occList_sorted data) hs_mem hps hsplit (by omega)

theorem occFrom_congr {data : List Nat} {a b : Nat} (hab : a ≤ b)
    (hnone : ∀ j, a ≤ j → j < b → subAt data bplistMagic j = false) :
    occFrom data a = occFrom data b := by
  unfold occFrom
  apply List.filter_congr
  intro i hi
  obtain ⟨hilen, hisub⟩ := mem_occList.mp hi
  by_cases hbi : b ≤ i
  · simp [hbi, show a ≤ i by omega]
  · have hai : ¬ a ≤ i := by
      intro hai
      have hfalse := hnone i hai (by omega)
      rw [hisub] at hfalse
      cases hfalse
    simp [hai, hbi]

/-! ### The locator loops compute the consecutive-occurrence ranges -/

theorem fbbLoop_eq_segs (data : List Nat) :
    ∀ pos, ParseCallLogs.fbbLoop data pos = segsOf (occFrom data pos) data.length := by
  have h8 : bplistMagic.length = 8 := by decide
  have H : ∀ n pos, data.length - pos ≤ n →
      ParseCallLogs.fbbLoop data pos = segsOf (occFrom data pos) data.length := by
    intro n
    induction n with
    | zero =>
      intro pos hpos
      rw [ParseCallLogs.fbbLoop]
      split
      · next h1 => rw [occFrom_nil h1]; rfl
      · next s h1 =>
        obtain ⟨hps, hsub, _⟩ := findSubFrom_some h1
        have := subAt_le_length hsub (by omega)
        omega
    | succ n ih =>
      intro pos hpos
      rw [ParseCallLogs.fbbLoop]
      split
      · next h1 => rw [occFrom_nil h1]; rfl
      · next s h1 =>
        obtain ⟨hps, hsub, _⟩ := findSubFrom_some h1
        have hsbound : s + 8 ≤ data.length := by
          have := subAt_le_length hsub (by omega)
          omega
        split
        · next h2 =>
          rw [occFrom_cons h1, occFrom_nil h2]
          rfl
        · next e h2 =>
          obtain ⟨hse, hesub, hemin⟩ := findSubFrom_some h2
          have hebound : e + 8 ≤ data.length := by
            have := subAt_le_length hesub (by omega)
            omega
          have hoe : occFrom data (s + 8) = occFrom data e :=
            occFrom_congr hse (fun j hj1 hj2 => hemin j hj1 hj2)
          have hoecons : occFrom data e = e :: occFrom data (e + 8) :=
            occFrom_cons (findSubFrom_self hesub (by omega))
          rw [occFrom_cons h1, hoe, hoecons]
          show _ = (s, e) :: segsOf (e :: occFrom data (e + 8)) data.length
          rw [← hoecons, ih e (by omega)]
  intro pos
  exact H (data.length - pos) pos le_rfl

theorem fpbLoop_eq_fbbLoop (data : List Nat) :
    ∀ start, TimestampParser.fpbLoop data start = ParseCallLogs.fbbLoop data start := by
  have h8 : bplistMagic.length = 8 := by decide
  have hlenNone : findSubFrom data bplistMagic data.length = none := by
    unfold findSubFrom
    rw [List.find?_eq_none]
    intro x hx
    obtain ⟨hx1, hx2⟩ := List.mem_range'_1.mp hx
    intro hsub
    have := subAt_le_length hsub (by omega)
    omega
  have H : ∀ n start, data.length - start ≤ n →
      TimestampParser.fpbLoop data start = ParseCallLogs.fbbLoop data start := by
    intro n
    induction n with
    | zero =>
      intro start hs
      rw [TimestampParser.fpbLoop, ParseCallLogs.fbbLoop]
      split
      · rfl
      · next s h1 =>
        obtain ⟨hps, hsub, _⟩ := findSubFrom_some h1
        have := subAt_le_length hsub (by omega)
        omega
    | succ n ih =>
      intro start hs
      rw [TimestampParser.fpbLoop, ParseCallLogs.fbbLoop]
      split
      · rfl
      · next s h1 =>
        obtain ⟨hps, hsub, _⟩ := findSubFrom_some h1
        have hsbound : s + 8 ≤ data.length := by
          have := subAt_le_length hsub (by omega)
          omega
        split
        · next h2 =>
          rw [TimestampParser.fpbLoop]
          split
          · rfl
          · next s3 h3 =>
            rw [hlenNone] at h3
            cases h3
        · next e h2 =>
          obtain ⟨hse, _, _⟩ := findSubFrom_some h2
          rw [ih e (by omega)]
  intro start
  exact H (data.length - start) start le_rfl

/-- C9: RecordLocator (`find_bplist_boundaries`, src/parse_call_logs.py lines
87-100, and `find_plist_boundaries`, src/timestamp_parser.py lines 39-52)
returns the empty range list for a buffer with zero occurrences of the 8-byte
magic sequence (not an error), and otherwise exactly the ranges
`[offset_i, offset_(i+1))` over consecutive magic occurrences, the final
range extending to the end of the buffer; both variants agree. -/
theorem c9_record_locator (data : List Nat) :
    (occList data = [] → ParseCallLogs.find_bplist_boundaries data = []) ∧
    ParseCallLogs.find_bplist_boundaries data = segsOf (occList data) data.length ∧
    TimestampParser.find_plist_boundaries data = ParseCallLogs.find_bplist_boundaries data := by
  have hocc : occFrom data 0 = occList data := by
    unfold occFrom
    apply List.filter_eq_self.mpr
    intro a _
    simp
  have h2 : ParseCallLogs.find_bplist_boundaries data = segsOf (occList data) data.length := by
    unfold ParseCallLogs.find_bplist_boundaries
    rw [fbbLoop_eq_segs data 0, hocc]
  refine ⟨fun h => by rw [h2, h]; rfl, h2, ?_⟩
  unfold TimestampParser.find_plist_boundaries ParseCallLogs.find_bplist_boundaries
  exact fpbLoop_eq_fbbLoop data 0

/-- Witness for C9 at a concrete magic-free buffer: `b"hello"` yields zero
ranges. -/
theorem c9_record_locator_witness :
    ParseCallLogs.find_bplist_boundaries (strBytes "hello") = [] :=
  (c9_record_locator (strBytes "hello")).1 (by decide)

/-! ### C2: PhoneNumberNormalizer -/

/-- C2: `PhoneNumberNormalizer` (`standardize_phone_number`,
src/new-log-parser.py lines 56-77) on the digit-only projection of the
input, proved for EVERY digit predicate `isdig` — so in particular for the
runtime's `str.isdigit`, whose Unicode table need not be reproduced:
length 10 → `+1`+digits; length 11 with leading `1` → `+`+digits; length 11
otherwise → `+1` + last 10 digits; length > 11 with leading `1` → `+` +
first 11 digits; length > 11 otherwise → `+1` + first 10 digits; length <
10 → absent (`none`, not an error). -/
theorem c2_phone_normalizer (isdig : Char → Bool) (s : String) :
    (((s.data.filter isdig).length = 10 →
      NewLogParser.standardize_phone_number isdig s =
        some (String.mk ('+' :: '1' :: s.data.filter isdig))) ∧
    ((s.data.filter isdig).length = 11 →
      (s.data.filter isdig).take 1 = ['1'] →
      NewLogParser.standardize_phone_number isdig s =
        some (String.mk ('+' :: s.data.filter isdig))) ∧
    ((s.data.filter isdig).length = 11 →
      (s.data.filter isdig).take 1 ≠ ['1'] →
      NewLogParser.standardize_phone_number isdig s =
        some (String.mk ('+' :: '1' ::
          (s.data.filter isdig).drop ((s.data.filter isdig).length - 10))))) ∧
    ((11 < (s.data.filter isdig).length →
      (s.data.filter isdig).take 1 = ['1'] →
      NewLogParser.standardize_phone_number isdig s =
        some (String.mk ('+' :: (s.data.filter isdig).take 11))) ∧
    (11 < (s.data.filter isdig).length →
      (s.data.filter isdig).take 1 ≠ ['1'] →
      NewLogParser.standardize_phone_number isdig s =
        some (String.mk ('+' :: '1' :: (s.data.filter isdig).take 10))) ∧
    ((s.data.filter isdig).length < 10 →
      NewLogParser.standardize_phone_number isdig s = none)) := by
  by_cases hp : s = ""
  · subst hp
    refine ⟨⟨?_, ?_, ?_⟩, ?_, ?_, ?_⟩ <;> intro h <;> simp_all <;> rfl
  · unfold NewLogParser.standardize_phone_number
    simp only [hp, if_false]
    refine ⟨⟨?_, ?_, ?_⟩, ?_, ?_, ?_⟩
    · intro h; simp [h]
    · intro h h1; simp [h, h1]
    · intro h h1; simp [h, h1]
    · intro h h1
      have h10 : ¬ (s.data.filter isdig).length = 10 := by omega
      have h11 : ¬ (s.data.filter isdig).length = 11 := by omega
      simp [h10, h11, h1, h]
    · intro h h1
      have h10 : ¬ (s.data.filter isdig).length = 10 := by omega
      have h11 : ¬ (s.data.filter isdig).length = 11 := by omega
      simp [h10, h11, h1, h]
    · intro h
      have h10 : ¬ (s.data.filter isdig).length = 10 := by omega
      have h11 : ¬ (s.data.filter isdig).length = 11 := by omega
      have h12 : ¬ 11 < (s.data.filter isdig).length := by omega
      simp [h10, h11, h12]

/-- Witness for C2 at the spec's own examples, instantiating the digit
predicate with the ASCII instance, with which Python's `str.isdigit` agrees
on these all-ASCII inputs: `"5551234567" → "+15551234567"`,
`"15551234567" → "+15551234567"`, `"25551234567" → "+15551234567"` (last 10
digits), `"123" → none`. -/
theorem c2_phone_normalizer_witness :
    NewLogParser.standardize_phone_number Char.isDigit "5551234567" =
      some "+15551234567" ∧
    NewLogParser.standardize_phone_number Char.isDigit "15551234567" =
      some "+15551234567" ∧
    NewLogParser.standardize_phone_number Char.isDigit "25551234567" =
      some "+15551234567" ∧
    NewLogParser.standardize_phone_number Char.isDigit "123" = none := by
  refine ⟨?_, ?_, ?_, ?_⟩
  · have h := (c2_phone_normalizer Char.isDigit "5551234567").1.1 (by decide)
    exact h.trans (by decide)
  · have h := (c2_phone_normalizer Char.isDigit "15551234567").1.2.1
      (by decide) (by decide)
    exact h.trans (by decide)
  · have h := (c2_phone_normalizer Char.isDigit "25551234567").1.2.2
      (by decide) (by decide)
    exact h.trans (by decide)
  · exact (c2_phone_normalizer Char.isDigit "123").2.2.2 (by decide)

/-! ### C4: TimestampCodec -/

/-- C4: TimestampCodec (`parse_wns_time`, src/log-parser.py lines 10-24 and
src/parse_call_logs.py lines 9-20) reads the 8 bytes after the 9-byte
`WNS.time#` key marker as a big-endian IEEE-754 double of seconds since
2001-01-01T00:00:00Z: the encoding of `0.0` decodes to 2001-01-01T00:00:00Z,
the encoding of `86400.0` decodes to 2001-01-02T00:00:00Z, and whenever fewer
than 8 bytes remain after the marker the result is `none`. -/
theorem c4_timestamp_codec :
    (LogParser.parse_wns_time (strBytes "WNS.time#" ++ [0, 0, 0, 0, 0, 0, 0, 0]) 0 =
        some 0 ∧
      microsToCivil 0 = ((2001, 1, 1), (0, 0, 0, 0))) ∧
    (LogParser.parse_wns_time (strBytes "WNS.time#" ++ [64, 245, 24, 0, 0, 0, 0, 0]) 0 =
        some 86400000000 ∧
      microsToCivil 86400000000 = ((2001, 1, 2), (0, 0, 0, 0))) ∧
    (∀ (data : List Nat) (idx : Nat), data.length < idx + 17 →
      LogParser.parse_wns_time data idx = none) := by
  refine ⟨⟨by decide, by decide⟩, ⟨by decide, by decide⟩, ?_⟩
  intro data idx h
  have hne : ¬ ((data.drop (idx + 9)).take 8).length = 8 := by
    simp only [List.length_take, List.length_drop]
    omega
  simp only [LogParser.parse_wns_time, if_neg hne]

/-- Witness for C4's truncated-input clause at a concrete buffer: the marker
alone, with zero bytes after it, decodes to `none`. -/
theorem c4_timestamp_codec_witness :
    LogParser.parse_wns_time (strBytes "WNS.time#") 0 = none :=
  c4_timestamp_codec.2.2 (strBytes "WNS.time#") 0 (by decide)

/-! ### UUID validity transfer -/

/-- Unfolding of `utf8Decode` on an ASCII head byte. -/
theorem utf8Decode_cons_ascii {b : Nat} (r : List Nat) (hb : b ≤ 127) :
    utf8Decode (b :: r) = (utf8Decode r).map (fun cs => Char.ofNat b :: cs) := by
  rw [utf8Decode]
  rw [if_pos hb]

/-- UTF-8 decoding of a pure-ASCII byte list is the pointwise character
conversion. -/
theorem utf8Decode_ascii : ∀ {l : List Nat}, (∀ b ∈ l, b ≤ 127) →
    utf8Decode l = some (l.map Char.ofNat) := by
  intro l
  induction l with
  | nil => intro _; rfl
  | cons b r ih =>
    intro h
    have hb : b ≤ 127 := h b (List.mem_cons_self _ _)
    rw [utf8Decode_cons_ascii r hb, ih (fun x hx => h x (List.mem_cons_of_mem _ hx))]
    rfl

/-- The byte-level UUID character classes agree with the character-level ones
under ASCII conversion. -/
theorem uuidByteCharClass :
    ∀ b : Nat, b < 128 →
      ((Char.ofNat b == '-') = (b == 45)) ∧
      ((('0' ≤ Char.ofNat b && Char.ofNat b ≤ '9') ||
          ('A' ≤ Char.ofNat b && Char.ofNat b ≤ 'F'))
        = (isDigitByte b || (65 ≤ b && b ≤ 70))) := by
  decide

/-- A byte list passing `checkUuidBytes` decodes to a string passing
`isValidUuidString`. -/
theorem checkUuid_to_valid {bs : List Nat} {s : String}
    (hb : checkUuidBytes bs = true) (hs : strOfBytes bs = some s) :
    isValidUuidString s = true := by
  unfold checkUuidBytes at hb
  rw [Bool.and_eq_true] at hb
  obtain ⟨hlen, hall⟩ := hb
  rw [beq_iff_eq] at hlen
  rw [List.all_eq_true] at hall
  have hascii : ∀ b ∈ bs, b ≤ 127 := by
    intro b hbmem
    obtain ⟨k, hget⟩ := List.mem_iff_get?.mp hbmem
    have hk36 : k < 36 := by
      obtain ⟨hklt, _⟩ := List.get?_eq_some.mp hget
      omega
    have hcl := hall k (List.mem_range.mpr hk36)
    simp only [hget] at hcl
    by_cases hdash : (k == 8 || k == 13 || k == 18 || k == 23) = true
    · rw [if_pos hdash] at hcl
      rw [beq_iff_eq] at hcl
      omega
    · rw [if_neg hdash] at hcl
      rcases Bool.or_eq_true_iff.mp hcl with hd | hx
      · unfold isDigitByte at hd
        rw [Bool.and_eq_true, decide_eq_true_eq, decide_eq_true_eq] at hd
        omega
      · rw [Bool.and_eq_true, decide_eq_true_eq, decide_eq_true_eq] at hx
        omega
  have hdecode := utf8Decode_ascii hascii
  unfold strOfBytes at hs
  rw [hdecode] at hs
  simp only [Option.map_some', Option.some.injEq] at hs
  subst hs
  unfold isValidUuidString
  rw [Bool.and_eq_true]
  constructor
  · show ((bs.map Char.ofNat).length == 36) = true
    simp [hlen]
  · rw [List.all_eq_true]
    intro k hk
    have hk36 := List.mem_range.mp hk
    have hcl := hall k hk
    have hget : ∃ b, bs.get? k = some b := by
      cases hg : bs.get? k with
      | none =>
        simp only [hg] at hcl
        cases hcl
      | some b => exact ⟨b, rfl⟩
    obtain ⟨b, hgb⟩ := hget
    simp only [hgb] at hcl
    have hchar : (String.mk (bs.map Char.ofNat)).data.get? k = some (Char.ofNat b) := by
      show (bs.map Char.ofNat).get? k = some (Char.ofNat b)
      rw [List.get?_map, hgb]
      rfl
    simp only [hchar]
    have hb127 : b ≤ 127 := hascii b (List.get?_mem hgb)
    obtain ⟨hc1, hc2⟩ := uuidByteCharClass b (by omega)
    by_cases hdash : (k == 8 || k == 13 || k == 18 || k == 23) = true
    · rw [if_pos hdash] at hcl ⊢
      rw [hc1]
      exact hcl
    · rw [if_neg hdash] at hcl ⊢
      rw [hc2]
      exact hcl

/-- A successful `firstUuid` match satisfies the byte-level UUID check. -/
theorem firstUuid_check {td bs : List Nat} (h : LogParser.firstUuid td = some bs) :
    checkUuidBytes bs = true := by
  unfold LogParser.firstUuid at h
  rw [Option.map_eq_some'] at h
  obtain ⟨i, hfind, rfl⟩ := h
  have hp := List.find?_some hfind
  rw [Bool.and_eq_true] at hp
  exact hp.2

/-! ### The transaction loop invariant (C1) -/

/-- One step of the transaction loop preserves: every accumulated call has a
valid uuid, the accumulated ids are distinct, and every accumulated id has
been recorded in `seen`. -/
theorem processTransaction_inv {st : LogParser.LpState} {td : List Nat}
    (h1 : ∀ c ∈ st.calls, isValidUuidString c.id = true)
    (h2 : (st.calls.map LogParser.Call.id).Nodup)
    (h3 : ∀ c ∈ st.calls, c.id ∈ st.seen) :
    (∀ c ∈ (LogParser.processTransaction st td).calls, isValidUuidString c.id = true) ∧
      ((LogParser.processTransaction st td).calls.map LogParser.Call.id).Nodup ∧
      (∀ c ∈ (LogParser.processTransaction st td).calls,
        c.id ∈ (LogParser.processTransaction st td).seen) := by
  unfold LogParser.processTransaction
  cases hf : LogParser.firstUuid td with
  | none =>
    simp only [hf]
    exact ⟨h1, h2, h3⟩
  | some idBytes =>
    simp only [hf]
    cases hsb : strOfBytes idBytes with
    | none =>
      simp only [hsb]
      exact ⟨h1, h2, h3⟩
    | some call_id =>
      simp only [hsb]
      by_cases hseen : call_id ∈ st.seen
      · rw [if_pos hseen]
        exact ⟨h1, h2, h3⟩
      · rw [if_neg hseen]
        have hvalid : isValidUuidString call_id = true :=
          checkUuid_to_valid (firstUuid_check hf) hsb
        cases hp : LogParser.parse_call_properties td with
        | error e =>
          simp only [hp]
          refine ⟨h1, h2, ?_⟩
          intro c hc
          exact List.mem_append_left _ (h3 c hc)
        | ok props =>
          simp only [hp]
          refine ⟨?_, ?_, ?_⟩
          · intro c hc
            rcases List.mem_append.mp hc with hold | hnew
            · exact h1 c hold
            · rw [List.mem_singleton.mp hnew]
              exact hvalid
          · rw [List.map_append]
            rw [List.nodup_append]
            refine ⟨h2, List.nodup_singleton _, ?_⟩
            intro x hx hx'
            obtain ⟨cold, hcold, rfl⟩ := List.mem_map.mp hx
            have heq : cold.id = call_id := List.mem_singleton.mp hx'
            exact hseen (heq ▸ h3 cold hcold)
          · intro c hc
            rcases List.mem_append.mp hc with hold | hnew
            · exact List.mem_append_left _ (h3 c hold)
            · rw [List.mem_singleton.mp hnew]
              exact List.mem_append_right _ (List.mem_singleton_self _)

/-- The loop invariant holds of the full fold. -/
theorem extract_call_metadata_inv (data : List Nat) :
    (∀ c ∈ (LogParser.extract_call_metadata data).calls, isValidUuidString c.id = true) ∧
      ((LogParser.extract_call_metadata data).calls.map LogParser.Call.id).Nodup := by
  have H : ∀ (ts : List (List Nat)) (st : LogParser.LpState),
      (∀ c ∈ st.calls, isValidUuidString c.id = true) →
      (st.calls.map LogParser.Call.id).Nodup →
      (∀ c ∈ st.calls, c.id ∈ st.seen) →
      (∀ c ∈ (ts.foldl LogParser.processTransaction st).calls,
          isValidUuidString c.id = true) ∧
        ((ts.foldl LogParser.processTransaction st).calls.map LogParser.Call.id).Nodup ∧
        (∀ c ∈ (ts.foldl LogParser.processTransaction st).calls,
          c.id ∈ (ts.foldl LogParser.processTransaction st).seen) := by
    intro ts
    induction ts with
    | nil => intro st a b c; exact ⟨a, b, c⟩
    | cons td rest ih =>
      intro st a b c
      have step := @processTransaction_inv st td a b c
      exact ih _ step.1 step.2.1 step.2.2
  have h := H (LogParser.find_transactions data)
    { seen := [], stats := [], calls := [] }
    (fun c hc => absurd hc (List.not_mem_nil c))
    List.nodup_nil
    (fun c hc => absurd hc (List.not_mem_nil c))
  exact ⟨h.1, h.2.1⟩

/-! ### Emitted records come from a transaction with an ok property parse -/

/-- Each call present after one loop step was either already there or is the
record built from this transaction: an ok `parse_call_properties` result and
a uuid recovered by the UUID matcher. -/
theorem processTransaction_calls_source (st : LogParser.LpState) (td : List Nat) :
    ∀ c ∈ (LogParser.processTransaction st td).calls,
      c ∈ st.calls ∨
        ∃ props, LogParser.parse_call_properties td = Except.ok props ∧
          ∃ bs, LogParser.firstUuid td = some bs ∧ strOfBytes bs = some c.id ∧
            c = LogParser.mkCall td c.id props := by
  intro c hc
  unfold LogParser.processTransaction at hc
  cases hf : LogParser.firstUuid td with
  | none =>
    simp only [hf] at hc
    exact Or.inl hc
  | some idBytes =>
    simp only [hf] at hc
    cases hsb : strOfBytes idBytes with
    | none =>
      simp only [hsb] at hc
      exact Or.inl hc
    | some call_id =>
      simp only [hsb] at hc
      by_cases hseen : call_id ∈ st.seen
      · rw [if_pos hseen] at hc
        exact Or.inl hc
      · rw [if_neg hseen] at hc
        cases hp : LogParser.parse_call_properties td with
        | error e =>
          simp only [hp] at hc
          exact Or.inl hc
        | ok props =>
          simp only [hp] at hc
          rcases List.mem_append.mp hc with hold | hnew
          · exact Or.inl hold
          · obtain rfl := List.mem_singleton.mp hnew
            exact Or.inr ⟨props, rfl, idBytes, rfl, hsb, rfl⟩

/-- Every emitted call originates in some transaction of the input, with an
ok `parse_call_properties` result, a matcher-recovered uuid, and fields given
by `mkCall` on that transaction's bytes. -/
theorem foldl_calls_source (data : List Nat) (c : LogParser.Call)
    (hc : c ∈ (LogParser.extract_call_metadata data).calls) :
    ∃ td ∈ LogParser.find_transactions data,
      ∃ props, LogParser.parse_call_properties td = Except.ok props ∧
        ∃ bs, LogParser.firstUuid td = some bs ∧ strOfBytes bs = some c.id ∧
          c = LogParser.mkCall td c.id props := by
  have H : ∀ (ts : List (List Nat)) (st : LogParser.LpState),
      c ∈ (ts.foldl LogParser.processTransaction st).calls →
      c ∈ st.calls ∨
        ∃ td ∈ ts,
          ∃ props, LogParser.parse_call_properties td = Except.ok props ∧
            ∃ bs, LogParser.firstUuid td = some bs ∧ strOfBytes bs = some c.id ∧
              c = LogParser.mkCall td c.id props := by
    intro ts
    induction ts with
    | nil => intro st h; exact Or.inl h
    | cons td rest ih =>
      intro st h
      rcases ih _ h with hst | ⟨td', htd', hsrc⟩
      · rcases processTransaction_calls_source st td c hst with h1 | h2
        · exact Or.inl h1
        · exact Or.inr ⟨td, List.mem_cons_self _ _, h2⟩
      · exact Or.inr ⟨td', List.mem_cons_of_mem _ htd', hsrc⟩
  rcases H (LogParser.find_transactions data) { seen := [], stats := [], calls := [] } hc with
    h | h
  · cases h
  · exact h

/-! ### C1: identity guarantee of the pipeline -/

/-- C1: every record emitted by `extract_call_metadata` (src/log-parser.py)
has a valid, matcher-recovered uuid; the emitted ids are pairwise distinct
within one run (a candidate with an already-seen id is dropped, one with no
recoverable uuid is never emitted). -/
theorem c1_unique_identity (data : List Nat) :
    (∀ c ∈ (LogParser.extract_call_metadata data).calls, isValidUuidString c.id = true) ∧
      ((LogParser.extract_call_metadata data).calls.map LogParser.Call.id).Nodup ∧
      (∀ c ∈ (LogParser.extract_call_metadata data).calls,
        ∃ td ∈ LogParser.find_transactions data,
          ∃ bs, LogParser.firstUuid td = some bs ∧ strOfBytes bs = some c.id) := by
  obtain ⟨h1, h2⟩ := extract_call_metadata_inv data
  refine ⟨h1, h2, ?_⟩
  intro c hc
  obtain ⟨td, htd, _, _, bs, hbs, hsb, _⟩ := foldl_calls_source data c hc
  exact ⟨td, htd, bs, hbs, hsb⟩

/-- Witness for C1 at a one-record buffer: the emitted record's id is the
embedded UUID and is valid. -/
theorem c1_unique_identity_witness :
    isValidUuidString "AAAAAAAA-0000-0000-0000-000000000000" = true := by
  have h := (c1_unique_identity
      (strBytes "bplist00$AAAAAAAA-0000-0000-0000-000000000000")).1
    ⟨"AAAAAAAA-0000-0000-0000-000000000000",
      none, none, none, none, none, none, none, none⟩
    (by decide)
  exact h

/-! ### C10: the undefined validate_duration name -/

/-- C10: in src/log-parser.py, any transaction matching
`duration\x10(\d{1,4})` makes `parse_call_properties` raise the unbound-name
error for `validate_duration` (referenced at line 150 but never defined in
the module), and consequently every record emitted by
`extract_call_metadata` is built by `mkCall` from a source transaction that
does NOT match that pattern — no record whose own bytes match it is ever
emitted. -/
theorem c10_undefined_validate_duration :
    (∀ td : List Nat, LogParser.hasDurationPattern td = true →
      LogParser.parse_call_properties td =
        Except.error (LogParser.PyExc.nameError "validate_duration")) ∧
    (∀ (data : List Nat) (c : LogParser.Call),
      c ∈ (LogParser.extract_call_metadata data).calls →
      ∃ td ∈ LogParser.find_transactions data,
        LogParser.hasDurationPattern td = false ∧
        ∃ props, LogParser.parse_call_properties td = Except.ok props ∧
          c = LogParser.mkCall td c.id props) := by
  constructor
  · intro td h
    unfold LogParser.parse_call_properties
    rw [if_pos h]
  · intro data c hc
    obtain ⟨td, htd, props, hok, _, _, _, hceq⟩ := foldl_calls_source data c hc
    refine ⟨td, htd, ?_, props, hok, hceq⟩
    by_cases hdp : LogParser.hasDurationPattern td = true
    · unfold LogParser.parse_call_properties at hok
      rw [if_pos hdp] at hok
      cases hok
    · exact Bool.not_eq_true _ ▸ eq_false_of_ne_true hdp

/-- Witness for C10: a concrete transaction containing `duration` `0x10`
`42` makes `parse_call_properties` raise `NameError`, and the one record
emitted from a concrete uuid-carrying buffer is tied by `mkCall` to its own
pattern-free transaction. -/
theorem c10_undefined_validate_duration_witness :
    (LogParser.parse_call_properties (strBytes "duration" ++ [16] ++ strBytes "42") =
      Except.error (LogParser.PyExc.nameError "validate_duration")) ∧
    (∃ td ∈ LogParser.find_transactions
        (strBytes "bplist00$AAAAAAAA-0000-0000-0000-000000000000"),
      LogParser.hasDurationPattern td = false ∧
      ∃ props, LogParser.parse_call_properties td = Except.ok props ∧
        (⟨"AAAAAAAA-0000-0000-0000-000000000000",
            none, none, none, none, none, none, none, none⟩ : LogParser.Call) =
          LogParser.mkCall td "AAAAAAAA-0000-0000-0000-000000000000" props) :=
  ⟨c10_undefined_validate_duration.1 (strBytes "duration" ++ [16] ++ strBytes "42")
      (by decide),
   c10_undefined_validate_duration.2
      (strBytes "bplist00$AAAAAAAA-0000-0000-0000-000000000000")
      ⟨"AAAAAAAA-0000-0000-0000-000000000000",
        none, none, none, none, none, none, none, none⟩
      (by decide)⟩

/-! ### C8: matcher independence -/

/-- C8 counterexample: the claim says no matcher's failure — including the
UUID matcher's — ever prevents another matcher from running on a candidate
range.  On the range `b"bplist00com.apple.Telephony"` the service-type
matcher matches (`serviceOf` returns the telephony pair), and whenever that
matcher runs it bumps the `cellular` stats counter (src/log-parser.py line
104); but the UUID matcher's failure aborts the transaction first
(`continue` at line 48), so the counter stays absent and no matcher output
is recorded — refuting the claim at this explicit input. -/
theorem c8_uuid_gate_counterexample :
    LogParser.serviceOf (strBytes "bplist00com.apple.Telephony") =
        some ("cellular", "com.apple.Telephony") ∧
    LogParser.find_transactions (strBytes "bplist00com.apple.Telephony") =
        [strBytes "bplist00com.apple.Telephony"] ∧
    LogParser.firstUuid (strBytes "bplist00com.apple.Telephony") = none ∧
    (LogParser.extract_call_metadata (strBytes "bplist00com.apple.Telephony")).stats = [] ∧
    (LogParser.extract_call_metadata (strBytes "bplist00com.apple.Telephony")).calls = [] := by
  refine ⟨by decide, by decide, by decide, by decide, by decide⟩

/-- C8 amended: once a range passes the UUID gate, the heuristic matchers are
independent — every field of an emitted record equals its own matcher
applied to the range bytes alone — and multiple matchers may populate
different fields of the same record (here phone number and contact name). -/
theorem c8_matcher_independence :
    (∀ (data : List Nat) (c : LogParser.Call),
      c ∈ (LogParser.extract_call_metadata data).calls →
      ∃ td ∈ LogParser.find_transactions data,
        c.number = LogParser.extractPhone td ∧
        c.name = LogParser.extractName td ∧
        c.timestamp = LogParser.extractTimestamp td ∧
        c.junk_confidence = LogParser.extractJunk td ∧
        c.type = (LogParser.serviceOf td).map Prod.fst ∧
        c.service = (LogParser.serviceOf td).map Prod.snd) ∧
    ((LogParser.extract_call_metadata
        (strBytes
          "bplist00$AAAAAAAA-0000-0000-0000-000000000000 _JOHN SMITH +15551234567")).calls.map
        (fun c => (c.number, c.name)) =
      [(some "+15551234567", some "JOHN SMITH")]) := by
  constructor
  · intro data c hc
    obtain ⟨td, htd, props, hok, bs, hbs, hsb, hceq⟩ := foldl_calls_source data c hc
    exact ⟨td, htd, by rw [hceq]; rfl, by rw [hceq]; rfl, by rw [hceq]; rfl,
      by rw [hceq]; rfl, by rw [hceq]; rfl, by rw [hceq]; rfl⟩
  · decide

/-- Witness for C8's universal part at a concrete two-field record. -/
theorem c8_matcher_independence_witness :
    ∃ td ∈ LogParser.find_transactions
        (strBytes
          "bplist00$AAAAAAAA-0000-0000-0000-000000000000 _JOHN SMITH +15551234567"),
      (⟨"AAAAAAAA-0000-0000-0000-000000000000", some "+15551234567", some "JOHN SMITH",
          none, none, none, none, none, none⟩ : LogParser.Call).number =
          LogParser.extractPhone td ∧
      (⟨"AAAAAAAA-0000-0000-0000-000000000000", some "+15551234567", some "JOHN SMITH",
          none, none, none, none, none, none⟩ : LogParser.Call).name =
          LogParser.extractName td ∧
      (⟨"AAAAAAAA-0000-0000-0000-000000000000", some "+15551234567", some "JOHN SMITH",
          none, none, none, none, none, none⟩ : LogParser.Call).timestamp =
          LogParser.extractTimestamp td ∧
      (⟨"AAAAAAAA-0000-0000-0000-000000000000", some "+15551234567", some "JOHN SMITH",
          none, none, none, none, none, none⟩ : LogParser.Call).junk_confidence =
          LogParser.extractJunk td ∧
      (⟨"AAAAAAAA-0000-0000-0000-000000000000", some "+15551234567", some "JOHN SMITH",
          none, none, none, none, none, none⟩ : LogParser.Call).type =
          (LogParser.serviceOf td).map Prod.fst ∧
      (⟨"AAAAAAAA-0000-0000-0000-000000000000", some "+15551234567", some "JOHN SMITH",
          none, none, none, none, none, none⟩ : LogParser.Call).service =
          (LogParser.serviceOf td).map Prod.snd :=
  c8_matcher_independence.1
    (strBytes "bplist00$AAAAAAAA-0000-0000-0000-000000000000 _JOHN SMITH +15551234567")
    ⟨"AAAAAAAA-0000-0000-0000-000000000000", some "+15551234567", some "JOHN SMITH",
      none, none, none, none, none, none⟩
    (by decide)

/-! ### C3: output ordering -/

/-- `orderedInsert` puts an element first when it relates to everything in
the list. -/
theorem orderedInsert_cons_of_forall {α : Type} {r : α → α → Prop} [DecidableRel r]
    {a : α} {l : List α} (h : ∀ y ∈ l, r a y) :
    List.orderedInsert r a l = a :: l := by
  cases l with
  | nil => rfl
  | cons b t => simp [List.orderedInsert, h b (List.mem_cons_self _ _)]

/-- `orderedInsert` passes over a prefix it does not relate to. -/
theorem orderedInsert_append_of_neg {α : Type} {r : α → α → Prop} [DecidableRel r]
    {a : α} {l1 l2 : List α} (h : ∀ y ∈ l1, ¬ r a y) :
    List.orderedInsert r a (l1 ++ l2) = l1 ++ List.orderedInsert r a l2 := by
  induction l1 with
  | nil => rfl
  | cons b t ih =>
    simp only [List.cons_append, List.orderedInsert, List.append_eq,
      if_neg (h b (List.mem_cons_self _ _))]
    rw [ih (fun y hy => h y (List.mem_cons_of_mem _ hy))]

/-- C3 counterexample: `export_to_csv` (src/log-parser.py line 175 and
src/gemini.py lines 187-188) keys null timestamps as `datetime.min`, so a
null-timestamp record sorts BEFORE every timestamped record, not after.  At
the concrete input `[A with timestamp 2001-01-01, B with null timestamp]`
the sorted output is `[B, A]`, refuting the claim's "every record with a null
timestamp is placed after all timestamped records" (formalized: in the
output, any record following a null-timestamp record is itself
null-timestamped). -/
theorem c3_nulls_last_counterexample :
    LogParser.sortCalls
        [⟨"A", none, none, some 0, none, none, none, none, none⟩,
         ⟨"B", none, none, none, none, none, none, none, none⟩] =
      [⟨"B", none, none, none, none, none, none, none, none⟩,
       ⟨"A", none, none, some 0, none, none, none, none, none⟩] ∧
    ¬ (LogParser.sortCalls
        [⟨"A", none, none, some 0, none, none, none, none, none⟩,
         ⟨"B", none, none, none, none, none, none, none, none⟩]).Pairwise
        (fun a b => a.timestamp = none → b.timestamp = none) := by
  constructor
  · decide
  · decide

/-- C3 amended: the export sort keys a null timestamp as `datetime.min`, so
a null-timestamp record is placed before every record whose timestamp is
strictly after `datetime.min`; a record decoded to exactly `datetime.min` —
reachable, the decoder's overflow guard admits it — carries the same key and
interleaves with the nulls in encounter order.  Formally, under the
hypothesis that every present timestamp is at least `datetime.min` (true of
every decodable record: `clampDatetime` rejects anything earlier), the
output is the key-equal-to-minimum records (all nulls among them) in their
original encounter order, followed by the strictly-later records in
ascending stable order, and the whole output is sorted by the
`datetime.min`-defaulted key. -/
theorem c3_null_timestamp_order (calls : List LogParser.Call)
    (h : ∀ c ∈ calls, ∀ t : ℤ, c.timestamp = some t → pyDatetimeMinMicros ≤ t) :
    LogParser.sortCalls calls =
      calls.filter (fun c => LogParser.sortKey c == pyDatetimeMinMicros) ++
        LogParser.sortCalls
          (calls.filter (fun c => !(LogParser.sortKey c == pyDatetimeMinMicros))) ∧
    (∀ c : LogParser.Call, c.timestamp = none →
      LogParser.sortKey c = pyDatetimeMinMicros) ∧
    (LogParser.sortCalls calls).Sorted
      (fun a b => LogParser.sortKey a ≤ LogParser.sortKey b) := by
  refine ⟨?_, ?_, ?_⟩
  · unfold LogParser.sortCalls
    have H : ∀ l : List LogParser.Call,
        (∀ c ∈ l, ∀ t : ℤ, c.timestamp = some t → pyDatetimeMinMicros ≤ t) →
        List.insertionSort (fun a b => LogParser.sortKey a ≤ LogParser.sortKey b) l =
          l.filter (fun c => LogParser.sortKey c == pyDatetimeMinMicros) ++
            List.insertionSort (fun a b => LogParser.sortKey a ≤ LogParser.sortKey b)
              (l.filter (fun c => !(LogParser.sortKey c == pyDatetimeMinMicros))) := by
      intro l
      induction l with
      | nil => intro _; rfl
      | cons c cs ih =>
        intro h'
        have hcs := fun x hx => h' x (List.mem_cons_of_mem _ hx)
        simp only [List.insertionSort]
        rw [ih hcs]
        by_cases hmin : LogParser.sortKey c = pyDatetimeMinMicros
        · have hall : ∀ y ∈
              cs.filter (fun c => LogParser.sortKey c == pyDatetimeMinMicros) ++
              List.insertionSort (fun a b => LogParser.sortKey a ≤ LogParser.sortKey b)
                (cs.filter (fun c => !(LogParser.sortKey c == pyDatetimeMinMicros))),
              LogParser.sortKey c ≤ LogParser.sortKey y := by
            intro y hy
            rw [hmin]
            have hycs : y ∈ cs := by
              rcases List.mem_append.mp hy with h1 | h2
              · exact List.mem_of_mem_filter h1
              · exact List.mem_of_mem_filter
                  ((List.perm_insertionSort _ _).mem_iff.mp h2)
            cases hyt : y.timestamp with
            | none => simp [LogParser.sortKey, hyt]
            | some t =>
              have hle := hcs y hycs t hyt
              simp only [LogParser.sortKey, hyt]
              omega
          rw [orderedInsert_cons_of_forall hall]
          have f1 : (c :: cs).filter
                (fun c => LogParser.sortKey c == pyDatetimeMinMicros) =
              c :: cs.filter (fun c => LogParser.sortKey c == pyDatetimeMinMicros) := by
            simp [List.filter_cons, hmin]
          have f2 : (c :: cs).filter
                (fun c => !(LogParser.sortKey c == pyDatetimeMinMicros)) =
              cs.filter (fun c => !(LogParser.sortKey c == pyDatetimeMinMicros)) := by
            simp [List.filter_cons, hmin]
          rw [f1, f2]
          rfl
        · have hgt : pyDatetimeMinMicros < LogParser.sortKey c := by
            cases hct : c.timestamp with
            | none => exact absurd (by simp [LogParser.sortKey, hct]) hmin
            | some t =>
              have hle := h' c (List.mem_cons_self _ _) t hct
              have hne : LogParser.sortKey c ≠ pyDatetimeMinMicros := hmin
              simp only [LogParser.sortKey, hct] at hne ⊢
              omega
          have hneg : ∀ y ∈
              cs.filter (fun c => LogParser.sortKey c == pyDatetimeMinMicros),
              ¬ LogParser.sortKey c ≤ LogParser.sortKey y := by
            intro y hy
            have hyk : LogParser.sortKey y = pyDatetimeMinMicros := by
              have := List.of_mem_filter hy
              simpa using this
            rw [hyk]
            omega
          rw [orderedInsert_append_of_neg hneg]
          have f1 : (c :: cs).filter
                (fun c => LogParser.sortKey c == pyDatetimeMinMicros) =
              cs.filter (fun c => LogParser.sortKey c == pyDatetimeMinMicros) := by
            simp [List.filter_cons, hmin]
          have f2 : (c :: cs).filter
                (fun c => !(LogParser.sortKey c == pyDatetimeMinMicros)) =
              c :: cs.filter (fun c => !(LogParser.sortKey c == pyDatetimeMinMicros)) := by
            simp [List.filter_cons, hmin]
          rw [f1, f2]
          simp only [List.insertionSort]
    exact H calls h
  · intro c hc
    simp [LogParser.sortKey, hc]
  · haveI : IsTotal LogParser.Call
        (fun a b => LogParser.sortKey a ≤ LogParser.sortKey b) :=
      ⟨fun a b => le_total _ _⟩
    haveI : IsTrans LogParser.Call
        (fun a b => LogParser.sortKey a ≤ LogParser.sortKey b) :=
      ⟨fun a b c h1 h2 => le_trans h1 h2⟩
    exact List.sorted_insertionSort _ _

/-- Witness for C3's amended statement at a concrete three-record list
holding a record decoded to exactly `datetime.min`, a null-timestamp record
and a later-timestamped record: the min-key block keeps encounter order
ahead of the strictly later record. -/
theorem c3_null_timestamp_order_witness :
    LogParser.sortCalls
        [⟨"M", none, none, some pyDatetimeMinMicros, none, none, none, none, none⟩,
         ⟨"B", none, none, none, none, none, none, none, none⟩,
         ⟨"A", none, none, some 0, none, none, none, none, none⟩] =
      ([⟨"M", none, none, some pyDatetimeMinMicros, none, none, none, none, none⟩,
        ⟨"B", none, none, none, none, none, none, none, none⟩,
        ⟨"A", none, none, some 0, none, none, none, none, none⟩] :
          List LogParser.Call).filter
            (fun c => LogParser.sortKey c == pyDatetimeMinMicros) ++
        LogParser.sortCalls
          (([⟨"M", none, none, some pyDatetimeMinMicros, none, none, none, none, none⟩,
             ⟨"B", none, none, none, none, none, none, none, none⟩,
             ⟨"A", none, none, some 0, none, none, none, none, none⟩] :
              List LogParser.Call).filter
                (fun c => !(LogParser.sortKey c == pyDatetimeMinMicros))) :=
  (c3_null_timestamp_order
    [⟨"M", none, none, some pyDatetimeMinMicros, none, none, none, none, none⟩,
     ⟨"B", none, none, none, none, none, none, none, none⟩,
     ⟨"A", none, none, some 0, none, none, none, none, none⟩]
    (by
      intro c hc t ht
      simp only [List.mem_cons, List.not_mem_nil, or_false] at hc
      rcases hc with rfl | rfl | rfl
      · have h1 : pyDatetimeMinMicros = t :=
          Option.some.inj (show some pyDatetimeMinMicros = some t from ht)
        omega
      · exact Option.noConfusion ht
      · have h1 : (0 : ℤ) = t :=
          Option.some.inj (show some (0 : ℤ) = some t from ht)
        have hm : pyDatetimeMinMicros = -63113904000000000 := rfl
        omega)).1

/-! ### C5: the duration sanity bound -/

/-- C5 (code bug): exp-parser's duration matcher reads the digits after the
literal `duration` through the 0x10/0x11 length-marker scheme, but the
"Sanity check: duration less than 24 hours" comment (line 77) is implemented
as `0 < length < 86400` on the FIELD LENGTH, not on the parsed value.  At
the failing input `b"duration" 0x10 0x05 b"99999"` the length is 5, the
check passes, and the record receives `durationSeconds = 99999 ≥ 86400`,
contradicting the claim's (and the comment's) value bound.  (The
parse_call_logs.py variant bounds the value by 3600, not 86400, diverging
from the claim as well.) -/
theorem c5_duration_bound_bug :
    ExpParser.parse_call_properties (strBytes "duration" ++ [16, 5] ++ strBytes "99999") =
      Except.ok { direction := none, duration := some 99999, callType := none,
                  service := none, callerIdLocation := none } ∧
    ¬ ((99999 : ℤ) < 86400) := by
  exact ⟨rfl, by decide⟩

/-! ### C6: decoder outcome taxonomy -/

/-- C6: `decode_call_record` (src/gemini.py lines 297-418, src/raw.py lines
19-131) never propagates a fault: any exception of the hex/biplist stage
becomes the `decodeFailure` outcome; on structural success it additionally
requires the top-level value to be a dictionary whose `root` key holds a
dictionary, and any violation of that shape yields the distinct non-fatal
`notCallRecord` outcome (a logged warning, not an error). -/
theorem c6_decoder_outcomes :
    (∀ e : String,
      Gemini.decode_call_record (Except.error e) = Gemini.DecodeOutcome.decodeFailure) ∧
    (∀ v : PlistValue, (∀ l, v ≠ PlistValue.dict l) →
      Gemini.decode_call_record (Except.ok v) = Gemini.DecodeOutcome.notCallRecord) ∧
    (∀ entries, List.lookup "root" entries = none →
      Gemini.decode_call_record (Except.ok (PlistValue.dict entries)) =
        Gemini.DecodeOutcome.notCallRecord) ∧
    (∀ entries v, List.lookup "root" entries = some v → (∀ l, v ≠ PlistValue.dict l) →
      Gemini.decode_call_record (Except.ok (PlistValue.dict entries)) =
        Gemini.DecodeOutcome.notCallRecord) ∧
    (∀ entries rootEntries,
      List.lookup "root" entries = some (PlistValue.dict rootEntries) →
      (Gemini.decode_call_record (Except.ok (PlistValue.dict entries)) =
          Gemini.DecodeOutcome.decodeFailure ∨
        ∃ flds, Gemini.decode_call_record (Except.ok (PlistValue.dict entries)) =
          Gemini.DecodeOutcome.success flds)) ∧
    Gemini.DecodeOutcome.notCallRecord ≠ Gemini.DecodeOutcome.decodeFailure := by
  refine ⟨fun e => rfl, ?_, ?_, ?_, ?_, ?_⟩
  · intro v hv
    cases v with
    | dict l => exact absurd rfl (hv l)
    | str s => rfl
    | int n => rfl
    | real q => rfl
    | boolean b => rfl
    | date d => rfl
    | data b => rfl
    | array a => rfl
  · intro entries h
    simp only [Gemini.decode_call_record, h]
  · intro entries v h hv
    simp only [Gemini.decode_call_record, h]
  · intro entries rootEntries h
    simp only [Gemini.decode_call_record, h]
    cases hx : Gemini.extractFields rootEntries with
    | error e => exact Or.inl rfl
    | ok flds => exact Or.inr ⟨flds, rfl⟩
  · intro h
    cases h

/-- Witness for C6 at concrete inputs: a raised biplist exception is a
decode failure; a top-level string, a dictionary without `root`, and a
non-dictionary `root` are each "not a call record"; a well-shaped empty
record decodes. -/
theorem c6_decoder_outcomes_witness :
    Gemini.decode_call_record (Except.error "Invalid plist") =
        Gemini.DecodeOutcome.decodeFailure ∧
    Gemini.decode_call_record (Except.ok (PlistValue.str "x")) =
        Gemini.DecodeOutcome.notCallRecord ∧
    Gemini.decode_call_record (Except.ok (PlistValue.dict [])) =
        Gemini.DecodeOutcome.notCallRecord ∧
    Gemini.decode_call_record
        (Except.ok (PlistValue.dict [("root", PlistValue.int 3)])) =
        Gemini.DecodeOutcome.notCallRecord :=
  ⟨c6_decoder_outcomes.1 "Invalid plist",
   c6_decoder_outcomes.2.1 (PlistValue.str "x") (fun l h => PlistValue.noConfusion h),
   c6_decoder_outcomes.2.2.1 [] rfl,
   c6_decoder_outcomes.2.2.2.1 [("root", PlistValue.int 3)] (PlistValue.int 3) rfl
     (fun l h => PlistValue.noConfusion h)⟩

/-! ### C7: the emission-time timestamp adjustment -/

/-- C7 counterexample: exp-parser's CSV emission (lines 296-313) passes
every timestamp through `adjust_timestamp` (lines 240-248), which subtracts
5 hours (after subtracting 115 years when the year exceeds 2024).  For a
record decoded to exactly the reference date 2001-01-01T00:00:00Z, the
emitted Call Timestamp is 2000-12-31T19:00:00 — not reference + decoded
seconds — refuting "no fixed-hours subtraction ... applied anywhere between
decoding and emission" at this explicit input. -/
theorem c7_adjustment_counterexample :
    ExpParser.export_call_timestamp_column
        [⟨"A", none, none, some 0, none, none, none, none, none⟩] =
      some [some (-18000000000)] ∧
    ¬ (ExpParser.export_call_timestamp_column
        [⟨"A", none, none, some 0, none, none, none, none, none⟩] =
      some [(⟨"A", none, none, some 0, none, none, none, none, none⟩ :
        LogParser.Call).timestamp]) ∧
    microsToCivil (-18000000000) = ((2000, 12, 31), (19, 0, 0, 0)) := by
  refine ⟨by decide, by decide, by decide⟩

/-- C7 amended: the decode path stores unadjusted timestamps, but
exp-parser's CSV emission applies `adjust_timestamp`: for records whose
decoded year is at most 2024 (and above `datetime.min + 5h`), every emitted
Call Timestamp equals the decoded timestamp minus exactly 5 hours. -/
theorem c7_emission_shift (calls : List LogParser.Call)
    (h : ∀ c ∈ calls, ∀ t : ℤ, c.timestamp = some t →
      (microsToCivil t).1.1 ≤ 2024 ∧ pyDatetimeMinMicros ≤ t - 18000000000) :
    ExpParser.export_call_timestamp_column calls =
      some ((List.insertionSort
          (fun a b => ExpParser.expSortKey a ≤ ExpParser.expSortKey b) calls).map
        (fun c => c.timestamp.map (fun t => t - 18000000000))) := by
  have hadj : ∀ c ∈ calls, ∀ t : ℤ, c.timestamp = some t →
      ExpParser.adjust_timestamp t = some (t - 18000000000) := by
    intro c hc t ht
    obtain ⟨hy, hmin⟩ := h c hc t ht
    unfold ExpParser.adjust_timestamp
    simp only [if_neg (show ¬ 2024 < (microsToCivil t).1.1 by omega)]
    rw [if_pos hmin]
  have hguard : calls.all (fun c =>
      match c.timestamp with
      | some t => (ExpParser.adjust_timestamp t).isSome
      | none => true) = true := by
    rw [List.all_eq_true]
    intro c hc
    cases ht : c.timestamp with
    | none => rfl
    | some t => simp [hadj c hc t ht]
  unfold ExpParser.export_call_timestamp_column
  rw [if_pos hguard]
  congr 1
  apply List.map_congr_left
  intro c hcs
  have hc : c ∈ calls := (List.perm_insertionSort _ _).mem_iff.mp hcs
  cases ht : c.timestamp with
  | none => simp
  | some t => simp [hadj c hc t ht]

/-- Witness for C7's amended statement at a one-record list decoded to the
reference date. -/
theorem c7_emission_shift_witness :
    ExpParser.export_call_timestamp_column
        [⟨"B", none, none, some 86400000000, none, none, none, none, none⟩] =
      some [some 68400000000] := by
  have h := c7_emission_shift
    [⟨"B", none, none, some 86400000000, none, none, none, none, none⟩]
    (by
      intro c hc t ht
      rcases List.mem_singleton.mp hc with rfl
      have h86 : (86400000000 : ℤ) = t :=
        Option.some.inj (show some (86400000000 : ℤ) = some t from ht)
      subst h86
      exact ⟨by decide, by decide⟩)
  exact h.trans (by decide)
